import Mathlib

/-!
Verification of the matching & scoring engine of the VisualNarrator-v2
class/association evaluation pipeline.

The definitions below are a shallow embedding of the Python sources
`src/class_assoc_pipeline/utils/data_utils.py`,
`src/class_assoc_pipeline/utils/metrics.py`, and the standards-preparation
prefixes of `pipelines/class_pipeline/matching.py` and
`pipelines/association_pipeline/matching.py`.

Modelling conventions:
- Python strings are Lean `String`s; `str.lower`, `str.strip`, `str.replace`,
  `in` (substring test) and `str.split` are re-implemented by structural
  recursion over the character list so that all definitions reduce in the
  kernel (ASCII-faithful; Unicode case/space classes are approximated).
- Python `set` objects are `Finset`s held in an explicit address-indexed
  store (`Store`), so that aliasing versus copying of the mutable reference
  sets is observable: `copy.copy` corresponds to writing the copied value to
  a fresh cell.  By convention address 0 holds the caller's `gold_standard`
  object, address 1 the caller's `silver_standard`, addresses 2, 3, 4 the
  private copies `remaining_gold_all`, `remaining_gold_man`,
  `remaining_silv`.
- `set.remove` raises `KeyError` when the element is absent; removals that
  the source performs without a preceding membership test are embedded via
  the fallible `Store.removeE` in the `Except Unit` monad.  Removals that
  the source guards with an `in` test immediately before are embedded as a
  plain erase (the guard makes failure impossible).
- `inflect.engine().singular_noun` is a third-party library; it is kept
  abstract as a parameter `sn : Singularizer`, where `some r` models a
  truthy return value and `none` models `False` (the Python code also falls
  back when the returned string is empty, which is modelled explicitly).
- Python dicts are association lists in insertion order; `d[k]` raising
  `KeyError` is modelled with `Except`, `d.get(k, default)` with `getD`.
- The matcher states carry two extra fields `ghostGold`, `ghostSilv`
  recording, in order, every element removed from the full-view gold set
  and from the silver set.  They influence no control flow and exist only
  so that consumption of reference items can be spoken about.
- `print` calls are side effects with no bearing on the returned values and
  are dropped.
-/

namespace VN

/-- Python `str.lower()` (ASCII). -/
def pyLower (s : String) : String := ⟨s.data.map Char.toLower⟩

/-- Drop leading whitespace characters of a character list. -/
def dropWs : List Char → List Char
  | [] => []
  | c :: cs => if c.isWhitespace then dropWs cs else c :: cs

/-- Python `str.strip()`: remove whitespace at both ends. -/
def pyTrim (s : String) : String := ⟨(dropWs ((dropWs s.data.reverse)).reverse)⟩

/-- Boolean list-prefix test on characters. -/
def isPrefixL : List Char → List Char → Bool
  | [], _ => true
  | _ :: _, [] => false
  | p :: ps, c :: cs => p == c && isPrefixL ps cs

/-- Python substring test `needle in hay` on character lists. -/
def subOcc (pat : List Char) : List Char → Bool
  | [] => pat.isEmpty
  | c :: cs => isPrefixL pat (c :: cs) || subOcc pat cs

/-- Python `needle in hay` for strings. -/
def pyContains (hay needle : String) : Bool := subOcc needle.data hay.data

/-- Python `str.replace`, left-to-right and non-overlapping, by fuel
recursion (the fuel `n` is instantiated with the full string length, which
always suffices because every step consumes at least one character). -/
def replaceFuel (pat rep : List Char) : Nat → List Char → List Char
  | 0, l => l
  | _ + 1, [] => []
  | n + 1, c :: cs =>
    if isPrefixL pat (c :: cs) && !pat.isEmpty then
      rep ++ replaceFuel pat rep n (cs.drop (pat.length - 1))
    else
      c :: replaceFuel pat rep n cs

/-- Python `s.replace(pat, rep)` (empty patterns are kept as a no-op). -/
def pyReplace (s pat rep : String) : String :=
  ⟨replaceFuel pat.data rep.data s.data.length s.data⟩

/-- Python `w.split("/")`. -/
def pySplitSlash (s : String) : List String :=
  (s.data.splitOn '/').map (fun l => ⟨l⟩)

/-- Abstract stand-in for `inflect.engine().singular_noun`: `none` models
the `False` return value (word already singular / no plural detected). -/
abbrev Singularizer := String → Option String

/-- Preserve-list of `data_utils.normalize_word` (verbatim from the
source, including the `"deliveryaddresnormalize_word"` entry). -/
def preserveKeywords : List String :=
  ["class", "process", "progress", "academic progress", "address",
   "delivery address", "deliveryaddresnormalize_word", "status",
   "order status", "business", "scheduling process", "payment process",
   "hiring process"]

/-- `data_utils.normalize_word`: lowercase and trim, preserve keywords,
otherwise singularize with fallback to the lowered form.  The Python
`_p.singular_noun(lowered) or lowered` also falls back when the library
returns a falsy (empty) string, hence the inner emptiness test. -/
def normalize_word (sn : Singularizer) (word : String) : String :=
  let lowered := pyTrim (pyLower word)
  if lowered ∈ preserveKeywords then lowered
  else
    match sn lowered with
    | some r => if r = "" then lowered else r
    | none => lowered

/-- Python dict insertion `m[k] = v` on an insertion-ordered association
list: overwrite in place if the key exists, else append. -/
def dinsert (m : List (String × String)) (k v : String) : List (String × String) :=
  if m.any (fun p => p.1 = k) then
    m.map (fun p => if p.1 = k then (k, v) else p)
  else m ++ [(k, v)]

/-- `data_utils.expand_synonym_mapping`: flatten a compact
standard → synonyms dictionary into a synonym → standard dictionary. -/
def expand_synonym_mapping (sn : Singularizer)
    (compact_dict : List (String × List String)) : List (String × String) :=
  compact_dict.foldl
    (fun flat entry =>
      entry.2.foldl
        (fun fl syn => dinsert fl (normalize_word sn syn) (normalize_word sn entry.1))
        flat)
    []

/-- Modelled from the spec (for comparison in C8): the flat map assigns to a
normalized synonym the normalized standard of the *last* compact entry, in
mapping order, containing a synonym with that normalized form. -/
def lastStandardFor (sn : Singularizer)
    (compact_dict : List (String × List String)) (k : String) : Option String :=
  compact_dict.foldl
    (fun acc entry =>
      if entry.2.any (fun syn => normalize_word sn syn = k) then
        some (normalize_word sn entry.1)
      else acc)
    none

/-- `generate_candidates` (identical in `data_utils.py` and `metrics.py`):
starting from the element, for each mapping entry in order, add for every
current candidate containing the key the trimmed string with the key
replaced.  Python iterates a set; the embedding keeps candidates in a
duplicate-free list in insertion order, which fixes the otherwise
unspecified set-iteration order. -/
def generate_candidates (element : String) (mapping : List (String × String)) : List String :=
  mapping.foldl
    (fun cands kv =>
      cands.foldl
        (fun acc cand =>
          if pyContains cand kv.1 then
            let replaced := pyTrim (pyReplace cand kv.1 kv.2)
            if replaced ∈ acc then acc else acc ++ [replaced]
          else acc)
        cands)
    [element]

/-- Strip the `"(opt)"` / `"(sil)"` markers and trim, as done on both the
matched and the unmatched items in `remove_non_punished_from_unmatched`. -/
def stripMarkers (item : String) : String :=
  pyTrim (pyReplace (pyReplace item "(opt)" "") "(sil)" "")

/-- Marker-stripping followed by normalization. -/
def cleanNorm (sn : Singularizer) (item : String) : String :=
  normalize_word sn (stripMarkers item)

/-- One `(parent, children)` rule exempts a (cleaned, normalized) unmatched
item when the normalized parent or one of its normalized children is in the
normalized matched set and the item itself is one of the normalized
children. -/
def ruleExempts (sn : Singularizer) (normalized_matched : Finset String)
    (clean_item : String) (rule : String × List String) : Bool :=
  (decide (normalize_word sn rule.1 ∈ normalized_matched)
      || rule.2.any (fun child => decide (normalize_word sn child ∈ normalized_matched)))
    && decide (clean_item ∈ rule.2.map (normalize_word sn))

/-- `metrics.remove_non_punished_from_unmatched`.  The per-item loop over
the rules with `break` is embedded as `find?` (first exempting rule wins and
supplies the parent named in the log line). -/
def remove_non_punished_from_unmatched (sn : Singularizer)
    (unmatched matched : List String)
    (non_punishment_mapping : List (String × List (String × List String)))
    (dataset : String) (log : String) : List String × String :=
  let children_map := (non_punishment_mapping.lookup dataset).getD []
  if children_map.isEmpty then (unmatched, log)
  else
    let normalized_matched := (matched.map (cleanNorm sn)).toFinset
    unmatched.foldl
      (fun acc item =>
        let clean_item := cleanNorm sn item
        match children_map.find? (ruleExempts sn normalized_matched clean_item) with
        | some rule =>
          (acc.1,
           acc.2 ++ "Non-punish: \x27" ++ item ++ "\x27 removed because its parent \x27" ++
             rule.1 ++ "\x27 was matched.\n")
        | none => (acc.1 ++ [item], acc.2))
      ([], log)

/-- `metrics.calculate_f_measure` (arithmetic modelled over `ℚ`). -/
def calculate_f_measure (precision recall' beta : ℚ) : ℚ :=
  if precision + recall' = 0 then 0
  else (1 + beta ^ 2) * precision * recall' / (beta ^ 2 * precision + recall')

/-- Python `round` to an integer, half-to-even, modelled exactly on `ℚ`
(the source applies it to IEEE doubles; ties behave identically whenever
the quotient is exactly representable). -/
def roundHalfEven (q : ℚ) : ℤ :=
  let f := ⌊q⌋
  if q - f < 1 / 2 then f
  else if q - f > 1 / 2 then f + 1
  else if f % 2 = 0 then f else f + 1

/-- Python `round(q, n)`. -/
def pyround (q : ℚ) (ndigits : Nat) : ℚ :=
  (roundHalfEven (q * 10 ^ ndigits) : ℚ) / 10 ^ ndigits

/-- Result dictionary of `metrics.compute_metrics`. -/
structure MetricsRecord where
  round : Nat
  totalIdentified : Nat
  tp : Nat
  fp : Nat
  fn : Nat
  precision : ℚ
  recall' : ℚ
  f05 : ℚ
  f1 : ℚ
  f2 : ℚ
deriving DecidableEq

/-- `metrics.compute_metrics`.  `len` applies to the matched/unmatched
lists and to the leftover gold set. -/
def compute_metrics {α β : Type} [DecidableEq β] (matched unmatched : List α)
    (remaining_gold : Finset β) (round_idx : Nat) : MetricsRecord :=
  let tp := matched.length
  let fp := unmatched.length
  let fn := remaining_gold.card
  let total := tp + fp
  let prec : ℚ := if total ≠ 0 then pyround ((tp : ℚ) / (total : ℚ)) 3 else 0
  let recl : ℚ := if tp + fn ≠ 0 then pyround ((tp : ℚ) / ((tp + fn : Nat) : ℚ)) 3 else 0
  { round := round_idx + 1
    totalIdentified := matched.length + unmatched.length
    tp := tp
    fp := fp
    fn := fn
    precision := prec
    recall' := recl
    f05 := pyround (calculate_f_measure prec recl (1 / 2)) 3
    f1 := pyround (calculate_f_measure prec recl 1) 3
    f2 := pyround (calculate_f_measure prec recl 2) 3 }

/-- Modelled from the spec (for comparison in C3): F-β as
`(1+β²)·P·R / (β²·P + R)`, or 0 when that denominator is 0. -/
def fbeta_spec (beta p r : ℚ) : ℚ :=
  if beta ^ 2 * p + r ≠ 0 then (1 + beta ^ 2) * p * r / (beta ^ 2 * p + r) else 0

/-- Address-indexed store of Python `set` objects with element type `α`. -/
abbrev Store (α : Type) := Nat → Finset α

/-- Overwrite the set held at address `a`. -/
def Store.write {α : Type} (σ : Store α) (a : Nat) (v : Finset α) : Store α :=
  fun b => if b = a then v else σ b

/-- Python `set.remove`: fails (raises `KeyError`) when the element is
absent. -/
def Store.removeE {α : Type} [DecidableEq α] (σ : Store α) (a : Nat) (x : α) :
    Except Unit (Store α) :=
  if x ∈ σ a then .ok (σ.write a ((σ a).erase x)) else .error ()

/-- State of `metrics.perform_matching` (classes).  Store addresses:
0 = caller's `gold_standard`, 1 = caller's `silver_standard`,
2 = `remaining_gold_all`, 3 = `remaining_gold_man`, 4 = `remaining_silv`.
`unmatched_pairs` stands for `unmatched_indices` (the source keeps indices
`i` only to re-read `words[i], is_optional[i]`, so the indexed pairs are
recorded directly).  `ghostGold` / `ghostSilv` are ghost data (see header). -/
structure CState where
  store : Store String
  mand_matched : List String
  opt_matched : List String
  mand_un : List String
  opt_un : List String
  unmatched_pairs : List (String × Bool)
  log : String
  ghostGold : List String
  ghostSilv : List String

/-- Slash-variants of a term: `w.split("/") if "/" in w else [w]`. -/
def variants (w : String) : List String :=
  if w.data.contains '/' then pySplitSlash w else [w]

/-- Exact pass, inner loop over one word's slash-variants: first variant
found in the full-view gold set, else in the silver set, wins; if no
variant matches, the word is deferred to the synonym pass. -/
def exactVars (st : CState) (w : String) (opt : Bool) :
    List String → Except Unit CState
  | [] => .ok { st with unmatched_pairs := st.unmatched_pairs ++ [(w, opt)] }
  | var :: rest =>
    if var ∈ st.store 2 then
      -- remaining_gold_all.remove(var) — guarded by the membership test
      let σ := st.store.write 2 ((st.store 2).erase var)
      if !opt then
        -- remaining_gold_man.remove(var) — unguarded in the source
        match σ.removeE 3 var with
        | .error e => .error e
        | .ok σ2 =>
          .ok { st with store := σ2,
                        mand_matched := st.mand_matched ++ [w],
                        ghostGold := st.ghostGold ++ [var] }
      else
        .ok { st with store := σ,
                      opt_matched := st.opt_matched ++ [w],
                      ghostGold := st.ghostGold ++ [var] }
    else if var ∈ st.store 4 then
      let σ := st.store.write 4 ((st.store 4).erase var)
      .ok { st with store := σ,
                    mand_matched :=
                      if opt then st.mand_matched else st.mand_matched ++ ["(sil)" ++ w],
                    opt_matched :=
                      if opt then st.opt_matched ++ ["(sil)" ++ w] else st.opt_matched,
                    log := st.log ++ "[Silver exact matched] " ++
                      (if opt then "(Opt) " else "") ++ w ++ "\n",
                    ghostSilv := st.ghostSilv ++ [var] }
    else exactVars st w opt rest

/-- Exact pass over all `(word, flag)` pairs (`zip(words, is_optional)`). -/
def exactPass (st : CState) : List (String × Bool) → Except Unit CState
  | [] => .ok st
  | (w, opt) :: rest =>
    match exactVars st w opt (variants w) with
    | .error e => .error e
    | .ok st2 => exactPass st2 rest

/-- Synonym pass, inner loop over one variant's candidates: the first
candidate found in the full-view gold set (checked first) or the silver set
consumes it; the Boolean reports whether a match happened. -/
def synCandLoop (st : CState) (w : String) (opt : Bool) :
    List String → Except Unit (CState × Bool)
  | [] => .ok (st, false)
  | c :: rest =>
    if c ∈ st.store 2 then
      let σ := st.store.write 2 ((st.store 2).erase c)
      if !opt then
        match σ.removeE 3 c with
        | .error e => .error e
        | .ok σ2 =>
          .ok ({ st with store := σ2,
                         mand_matched := st.mand_matched ++ [w],
                         log := st.log ++ "[Gold syn]    " ++
                           (if opt then "(Opt) " else "") ++ w ++ " → " ++ c ++ "\n",
                         ghostGold := st.ghostGold ++ [c] }, true)
      else
        .ok ({ st with store := σ,
                       opt_matched := st.opt_matched ++ [w],
                       log := st.log ++ "[Gold syn]    " ++
                         (if opt then "(Opt) " else "") ++ w ++ " → " ++ c ++ "\n",
                       ghostGold := st.ghostGold ++ [c] }, true)
    else if c ∈ st.store 4 then
      let σ := st.store.write 4 ((st.store 4).erase c)
      .ok ({ st with store := σ,
                     mand_matched :=
                       if opt then st.mand_matched else st.mand_matched ++ ["(sil)" ++ w],
                     opt_matched :=
                       if opt then st.opt_matched ++ ["(sil)" ++ w] else st.opt_matched,
                     log := st.log ++ "[Silv syn]    " ++
                       (if opt then "(Opt) " else "") ++ w ++ " → " ++ c ++ "\n",
                     ghostSilv := st.ghostSilv ++ [c] }, true)
    else synCandLoop st w opt rest

/-- Synonym pass, loop over one word's slash-variants; when no variant's
candidates match, the word is bucketed as permanently unmatched. -/
def synVarLoop (sm : List (String × String)) (st : CState) (w : String) (opt : Bool) :
    List String → Except Unit CState
  | [] =>
    .ok { st with mand_un := if opt then st.mand_un else st.mand_un ++ [w],
                  opt_un := if opt then st.opt_un ++ [w] else st.opt_un }
  | var :: rest =>
    match synCandLoop st w opt (generate_candidates var sm) with
    | .error e => .error e
    | .ok (st2, true) => .ok st2
    | .ok (st2, false) => synVarLoop sm st2 w opt rest

/-- Synonym pass over the words deferred by the exact pass. -/
def synPass (sm : List (String × String)) (st : CState) :
    List (String × Bool) → Except Unit CState
  | [] => .ok st
  | (w, opt) :: rest =>
    match synVarLoop sm st w opt (variants w) with
    | .error e => .error e
    | .ok st2 => synPass sm st2 rest

/-- Final log section of `perform_matching`. -/
def finalLog (st : CState) : CState :=
  let l1 := st.mand_matched.foldl (fun acc p => acc ++ "[Matched] " ++ p ++ "\n") st.log
  let l2 := st.opt_matched.foldl (fun acc p => acc ++ "[Matched] (Opt) " ++ p ++ "\n") l1
  let l3 := st.mand_un.foldl (fun acc p => acc ++ "[Unmatched] " ++ p ++ "\n") l2
  let l4 := st.opt_un.foldl (fun acc p => acc ++ "[Unmatched] (Opt) " ++ p ++ "\n") l3
  { st with log := l4 }

/-- Initial state: `copy.copy` of the argument sets at addresses 0 and 1
into the freshly used cells 2, 3 and 4, empty result lists and log. -/
def initialCState (σ : Store String) : CState :=
  { store := (((σ.write 2 (σ 0)).write 3 (σ 0)).write 4 (σ 1))
    mand_matched := []
    opt_matched := []
    mand_un := []
    opt_un := []
    unmatched_pairs := []
    log := ""
    ghostGold := []
    ghostSilv := [] }

/-- `metrics.perform_matching`: exact pass, then synonym pass over the
deferred words, then the final log section.  The returned state exposes the
result lists, the log, and (through the store) the returned
`remaining_gold_man` (address 3) and `remaining_gold_all` (address 2). -/
def perform_matching (words : List String) (is_optional : List Bool)
    (σ : Store String) (synonym_map : List (String × String)) : Except Unit CState :=
  match exactPass (initialCState σ) (words.zip is_optional) with
  | .error e => .error e
  | .ok st =>
    match synPass synonym_map st st.unmatched_pairs with
    | .error e => .error e
    | .ok st2 => .ok (finalLog st2)

/-- An association line as passed by the caller: an `(X, Y)` tuple. -/
abbrev APair := String × String

/-- Python `frozenset({X, Y})`. -/
def pairFS (p : APair) : Finset String := insert p.1 {p.2}

/-- Entries of the association matched lists: either the original tuple
`w` or the string `f"(sil){w}"` (the silver-tagged rendering). -/
inductive AOut where
  | raw (p : APair)
  | sil (p : APair)
deriving DecidableEq

/-- Python `f"{w}"` for a pair `w` (its `repr`). -/
def pairStr (w : APair) : String :=
  "(\x27" ++ w.1 ++ "\x27, \x27" ++ w.2 ++ "\x27)"

/-- Rendering of a frozenset in a log line; Python's set iteration order is
unspecified, the model sorts the elements. -/
def fsetStr (p : Finset String) : String :=
  "frozenset(\x7b" ++ String.intercalate ", " (p.sort (· ≤ ·)) ++ "\x7d)"

/-- State of `metrics.perform_matching_associations`; store addresses as in
`CState` (0 = caller's `gold_std`, 1 = caller's `silver_std`,
2 = `remaining_gold_all`, 3 = `remaining_gold_man`, 4 = `remaining_silv`). -/
structure AState where
  store : Store (Finset String)
  mand_matched : List AOut
  opt_matched : List AOut
  mand_un : List APair
  opt_un : List APair
  unmatched_pairs : List (APair × Bool)
  log_lines : List String
  ghostGold : List (Finset String)
  ghostSilv : List (Finset String)

/-- Exact pass of the association matcher, one `(w, opt)` entry. -/
def assocExactStep (st : AState) (w : APair) (opt : Bool) : Except Unit AState :=
  let original := pairFS w
  if original ∈ st.store 2 then
    let σ := st.store.write 2 ((st.store 2).erase original)
    if !opt then
      match σ.removeE 3 original with
      | .error e => .error e
      | .ok σ2 =>
        .ok { st with store := σ2,
                      mand_matched := st.mand_matched ++ [.raw w],
                      ghostGold := st.ghostGold ++ [original] }
    else
      .ok { st with store := σ,
                    opt_matched := st.opt_matched ++ [.raw w],
                    ghostGold := st.ghostGold ++ [original] }
  else if original ∈ st.store 4 then
    let σ := st.store.write 4 ((st.store 4).erase original)
    .ok { st with store := σ,
                  mand_matched :=
                    if opt then st.mand_matched else st.mand_matched ++ [.sil w],
                  opt_matched :=
                    if opt then st.opt_matched ++ [.sil w] else st.opt_matched,
                  log_lines := st.log_lines ++
                    ["[Silver exact matched] " ++ (if opt then "(Opt) " else "") ++ pairStr w],
                  ghostSilv := st.ghostSilv ++ [original] }
  else
    .ok { st with unmatched_pairs := st.unmatched_pairs ++ [(w, opt)] }

/-- Exact pass over all zipped association entries. -/
def assocExactPass (st : AState) : List (APair × Bool) → Except Unit AState
  | [] => .ok st
  | (w, opt) :: rest =>
    match assocExactStep st w opt with
    | .error e => .error e
    | .ok st2 => assocExactPass st2 rest

/-- Inner loop of the candidate cross product: first `cy` (for a fixed
`cx`) whose pair with `cx` is in `rem`. -/
def findRow (cx : String) (rem : Finset (Finset String)) :
    List String → Option (Finset String)
  | [] => none
  | cy :: rest =>
    if pairFS (cx, cy) ∈ rem then some (pairFS (cx, cy)) else findRow cx rem rest

/-- The double loop `for cx in cands_x: for cy in cands_y:` with `break` on
the first candidate pair present in `rem`: returns that first pair. -/
def findPair (rem : Finset (Finset String)) :
    List String → List String → Option (Finset String)
  | [], _ => none
  | cx :: rest, cys =>
    match findRow cx rem cys with
    | some p => some p
    | none => findPair rem rest cys

/-- Synonym pass of the association matcher, one deferred entry: candidates
are generated independently for both sides, their cross product is searched
in the remaining gold set first, then in the remaining silver set; the
first pair found is consumed, otherwise the entry is permanently
unmatched. -/
def assocSynStep (sm : List (String × String)) (st : AState) (w : APair) (opt : Bool) :
    Except Unit AState :=
  let cands_x := generate_candidates w.1 sm
  let cands_y := generate_candidates w.2 sm
  match findPair (st.store 2) cands_x cands_y with
  | some p =>
    let σ := st.store.write 2 ((st.store 2).erase p)
    if !opt then
      match σ.removeE 3 p with
      | .error e => .error e
      | .ok σ2 =>
        .ok { st with store := σ2,
                      mand_matched := st.mand_matched ++ [.raw w],
                      log_lines := st.log_lines ++
                        ["[Gold Syn ]  " ++ (if opt then "(Opt) " else "") ++ pairStr w ++
                          " → " ++ fsetStr p],
                      ghostGold := st.ghostGold ++ [p] }
    else
      .ok { st with store := σ,
                    opt_matched := st.opt_matched ++ [.raw w],
                    log_lines := st.log_lines ++
                      ["[Gold Syn ]  " ++ (if opt then "(Opt) " else "") ++ pairStr w ++
                        " → " ++ fsetStr p],
                    ghostGold := st.ghostGold ++ [p] }
  | none =>
    match findPair (st.store 4) cands_x cands_y with
    | some p =>
      let σ := st.store.write 4 ((st.store 4).erase p)
      .ok { st with store := σ,
                    mand_matched :=
                      if opt then st.mand_matched else st.mand_matched ++ [.sil w],
                    opt_matched :=
                      if opt then st.opt_matched ++ [.sil w] else st.opt_matched,
                    log_lines := st.log_lines ++
                      ["[Silv Syn ]  " ++ (if opt then "(Opt) " else "") ++ pairStr w ++
                        " → " ++ fsetStr p],
                    ghostSilv := st.ghostSilv ++ [p] }
    | none =>
      .ok { st with mand_un := if opt then st.mand_un else st.mand_un ++ [w],
                    opt_un := if opt then st.opt_un ++ [w] else st.opt_un }

/-- Synonym pass over the deferred association entries. -/
def assocSynPass (sm : List (String × String)) (st : AState) :
    List (APair × Bool) → Except Unit AState
  | [] => .ok st
  | (w, opt) :: rest =>
    match assocSynStep sm st w opt with
    | .error e => .error e
    | .ok st2 => assocSynPass sm st2 rest

/-- Final summary section of the association log, including the
`[Missing]` lines for the leftover full-view gold items (set iteration
order modelled as sorted rendering). -/
def assocFinalLog (st : AState) : AState :=
  let outStr : AOut → String := fun o =>
    match o with
    | .raw p => pairStr p
    | .sil p => "(sil)" ++ pairStr p
  let l1 := st.log_lines ++ st.mand_matched.map (fun m => "[Matched]    " ++ outStr m)
  let l2 := l1 ++ st.opt_matched.map (fun m => "[Matched]    (Opt) " ++ outStr m)
  let l3 := l2 ++ st.mand_un.map (fun u => "[Unmatched]  " ++ pairStr u)
  let l4 := l3 ++ st.opt_un.map (fun u => "[Unmatched]  (Opt) " ++ pairStr u)
  let l5 := l4 ++ ["==========="]
  let l6 := l5 ++ (((st.store 2).image fsetStr).sort (· ≤ ·)).map (fun m => "[Missing]  " ++ m)
  { st with log_lines := l6 ++ ["==========="] }

/-- Initial association-matcher state (private copies at cells 2, 3, 4). -/
def initialAState (σ : Store (Finset String)) : AState :=
  { store := (((σ.write 2 (σ 0)).write 3 (σ 0)).write 4 (σ 1))
    mand_matched := []
    opt_matched := []
    mand_un := []
    opt_un := []
    unmatched_pairs := []
    log_lines := []
    ghostGold := []
    ghostSilv := [] }

/-- `metrics.perform_matching_associations` (the returned `log` string is
`"\n".join` of the final `log_lines`). -/
def perform_matching_associations (assoc_lines : List APair) (is_opt : List Bool)
    (σ : Store (Finset String)) (synonym_map : List (String × String)) :
    Except Unit AState :=
  match assocExactPass (initialAState σ) (assoc_lines.zip is_opt) with
  | .error e => .error e
  | .ok st =>
    match assocSynPass synonym_map st st.unmatched_pairs with
    | .error e => .error e
    | .ok st2 => .ok (assocFinalLog st2)

/-- Standards-preparation prefix of `class_pipeline.matching.run_experiment`
(its lines 48–51): gold is indexed directly (`KeyError` when absent), the
silver tier defaults to the empty list, the synonym table is again indexed
directly (`KeyError` when absent). -/
def run_experiment_prepare (sn : Singularizer) (dataset : String)
    (gold_standard_dict : List (String × List String))
    (silver_standard_dict : List (String × List String))
    (synonym_dict : List (String × List (String × List String))) :
    Except Unit (Finset String × Finset String × List (String × String)) :=
  let dataset_key := pyLower dataset
  match gold_standard_dict.lookup dataset_key with
  | none => .error ()
  | some gold_raw =>
    let gold_standard := (gold_raw.map (normalize_word sn)).toFinset
    let silver_raw := (silver_standard_dict.lookup dataset_key).getD []
    let silver_standard := (silver_raw.map (normalize_word sn)).toFinset
    match synonym_dict.lookup dataset_key with
    | none => .error ()
    | some compact => .ok (gold_standard, silver_standard, expand_synonym_mapping sn compact)

/-- Standards-preparation prefix of
`association_pipeline.matching.evaluation_experiment` (its lines 43–47):
same shape as the class pipeline, with term-pairs mapped to frozensets of
normalized endpoints. -/
def evaluation_experiment_prepare (sn : Singularizer) (dataset : String)
    (gold_assoc_dict : List (String × List APair))
    (silver_assoc_dict : List (String × List APair))
    (synonym_dict : List (String × List (String × List String))) :
    Except Unit (Finset (Finset String) × Finset (Finset String) × List (String × String)) :=
  let ds := pyLower dataset
  match gold_assoc_dict.lookup ds with
  | none => .error ()
  | some gold_raw =>
    let gold_set :=
      (gold_raw.map (fun pair => pairFS (normalize_word sn pair.1, normalize_word sn pair.2))).toFinset
    let silver_raw := (silver_assoc_dict.lookup ds).getD []
    let silver_set :=
      (silver_raw.map (fun pair => pairFS (normalize_word sn pair.1, normalize_word sn pair.2))).toFinset
    match synonym_dict.lookup ds with
    | none => .error ()
    | some compact => .ok (gold_set, silver_set, expand_synonym_mapping sn compact)

/-! ### Lemmas about the flat synonym dictionary -/

theorem lookup_cons (k : String) (p : String × String) (l : List (String × String)) :
    List.lookup k (p :: l) = if k = p.1 then some p.2 else List.lookup k l := by
  by_cases h : k = p.1
  · rw [if_pos h]
    have hb : (k == p.1) = true := beq_iff_eq.mpr h
    simp [List.lookup, hb]
  · rw [if_neg h]
    have hb : (k == p.1) = false := beq_eq_false_iff_ne.mpr h
    simp [List.lookup, hb]

theorem lookup_map_overwrite_self (m : List (String × String)) (k v : String)
    (hk : m.any (fun p => p.1 = k) = true) :
    (m.map (fun p => if p.1 = k then (k, v) else p)).lookup k = some v := by
  induction m with
  | nil => simp at hk
  | cons p rest ih =>
    by_cases hp : p.1 = k
    · simp [List.map_cons, if_pos hp, lookup_cons]
    · simp only [List.any_cons, decide_eq_true_eq, Bool.or_eq_true] at hk
      rcases hk with hk | hk
      · exact absurd hk hp
      · rw [List.map_cons, if_neg hp, lookup_cons, if_neg (fun h => hp h.symm)]
        exact ih (by simpa using hk)

theorem lookup_map_overwrite_other (m : List (String × String)) (k v k' : String)
    (h : k' ≠ k) :
    (m.map (fun p => if p.1 = k then (k, v) else p)).lookup k' = m.lookup k' := by
  induction m with
  | nil => simp
  | cons p rest ih =>
    by_cases hp : p.1 = k
    · rw [List.map_cons, if_pos hp, lookup_cons, lookup_cons, if_neg h,
        if_neg (fun hc => h (hc.trans hp)), ih]
    · by_cases hk' : k' = p.1
      · rw [List.map_cons, if_neg hp, lookup_cons, lookup_cons, if_pos hk', if_pos hk']
      · rw [List.map_cons, if_neg hp, lookup_cons, lookup_cons, if_neg hk', if_neg hk', ih]

theorem lookup_eq_none_of_not_any (m : List (String × String)) (k : String)
    (hk : m.any (fun p => p.1 = k) = false) : m.lookup k = none := by
  induction m with
  | nil => simp
  | cons p rest ih =>
    simp only [List.any_cons, Bool.or_eq_false_iff, decide_eq_false_iff_not] at hk
    rw [lookup_cons, if_neg (fun h => hk.1 h.symm)]
    exact ih hk.2

theorem lookup_dinsert (m : List (String × String)) (k v k' : String) :
    (dinsert m k v).lookup k' = if k' = k then some v else m.lookup k' := by
  unfold dinsert
  by_cases hany : m.any (fun p => p.1 = k) = true
  · by_cases h : k' = k
    · subst h; simp only [hany, if_pos rfl, if_true]
      exact lookup_map_overwrite_self m k' v hany
    · simp only [hany, if_true, if_neg h]
      exact lookup_map_overwrite_other m k v k' h
  · rw [if_neg hany]
    rw [Bool.not_eq_true] at hany
    induction m with
    | nil =>
      rw [List.nil_append, lookup_cons]
    | cons p rest ih =>
      simp only [List.any_cons, Bool.or_eq_false_iff, decide_eq_false_iff_not] at hany
      by_cases hk' : k' = p.1
      · have hne : k' ≠ k := fun h => hany.1 (by rw [← hk', h])
        rw [List.cons_append, lookup_cons, if_pos hk', lookup_cons, if_pos hk', if_neg hne]
      · rw [List.cons_append, lookup_cons, if_neg hk', lookup_cons, if_neg hk',
          ih hany.2]

theorem lookup_syn_foldl (sn : Singularizer) (v : String) (syns : List String)
    (m : List (String × String)) (k : String) :
    (syns.foldl (fun fl syn => dinsert fl (normalize_word sn syn) v) m).lookup k
      = if syns.any (fun syn => normalize_word sn syn = k) then some v else m.lookup k := by
  induction syns generalizing m with
  | nil => simp
  | cons syn rest ih =>
    simp only [List.foldl_cons, List.any_cons, Bool.or_eq_true, decide_eq_true_eq]
    rw [ih]
    by_cases hrest : rest.any (fun syn => normalize_word sn syn = k) = true
    · simp [hrest]
    · simp only [hrest, if_false, lookup_dinsert, Bool.false_eq_true, or_false]
      by_cases h : normalize_word sn syn = k
      · simp [h]
      · simp [h, Ne.symm h]

theorem lookup_expand_foldl (sn : Singularizer)
    (compact : List (String × List String)) (m : List (String × String)) (k : String) :
    (compact.foldl
        (fun flat entry =>
          entry.2.foldl
            (fun fl syn => dinsert fl (normalize_word sn syn) (normalize_word sn entry.1))
            flat)
        m).lookup k
      = compact.foldl
          (fun acc entry =>
            if entry.2.any (fun syn => normalize_word sn syn = k) then
              some (normalize_word sn entry.1)
            else acc)
          (m.lookup k) := by
  induction compact generalizing m with
  | nil => simp
  | cons e rest ih =>
    simp only [List.foldl_cons]
    rw [ih, lookup_syn_foldl]

/-- C8: for every compact map, looking up a key in the flat map produced by
`expand_synonym_mapping` yields the normalized standard of the last entry
(in mapping order) containing a synonym normalizing to that key — the later
entry wins on collisions. -/
theorem C8_expand_synonym_later_entry_wins (sn : Singularizer)
    (compact_dict : List (String × List String)) (k : String) :
    (expand_synonym_mapping sn compact_dict).lookup k = lastStandardFor sn compact_dict k := by
  unfold expand_synonym_mapping lastStandardFor
  rw [lookup_expand_foldl]
  simp

/-! ### Lemmas about the non-punishment filter -/

theorem prune_foldl (sn : Singularizer) (nm : Finset String)
    (cm : List (String × List String)) (u : List String) (a : List String × String) :
    (u.foldl
        (fun acc item =>
          match cm.find? (ruleExempts sn nm (cleanNorm sn item)) with
          | some rule =>
            (acc.1,
             acc.2 ++ "Non-punish: \x27" ++ item ++ "\x27 removed because its parent \x27" ++
               rule.1 ++ "\x27 was matched.\n")
          | none => (acc.1 ++ [item], acc.2))
        a).1
      = a.1 ++ u.filter (fun item => !(cm.any (ruleExempts sn nm (cleanNorm sn item)))) := by
  induction u generalizing a with
  | nil => simp
  | cons item rest ih =>
    simp only [List.foldl_cons, List.filter_cons]
    rcases hf : cm.find? (ruleExempts sn nm (cleanNorm sn item)) with _ | rule
    · have hany : cm.any (ruleExempts sn nm (cleanNorm sn item)) = false := by
        rw [List.any_eq_false]
        intro r hr
        have := List.find?_eq_none.mp hf r hr
        simpa using this
      simp only [hf, hany, Bool.not_false, if_true, ih]
      simp
    · have hany : cm.any (ruleExempts sn nm (cleanNorm sn item)) = true := by
        rw [List.any_eq_true]
        exact ⟨rule, List.mem_of_find?_eq_some hf, List.find?_some hf⟩
      simp only [hf, hany, Bool.not_true, ih]
      simp

/-- C6: `remove_non_punished_from_unmatched` (i) returns the unmatched list
and the log unchanged when the dataset has no entry in the non-punishment
map, and (ii) in general returns exactly the unmatched terms for which no
`(parent, children)` rule of the dataset's entry exempts them (normalized
parent or some normalized child matched, and the term's cleaned normalized
form among that rule's normalized children), in their original order, each
dropped term being charged to the first exempting rule. -/
theorem C6_non_punishment_filter :
    (∀ (sn : Singularizer) (unmatched matched : List String)
       (npm : List (String × List (String × List String))) (dataset log : String),
       npm.lookup dataset = none →
       remove_non_punished_from_unmatched sn unmatched matched npm dataset log
         = (unmatched, log)) ∧
    (∀ (sn : Singularizer) (unmatched matched : List String)
       (npm : List (String × List (String × List String))) (dataset log : String),
       (remove_non_punished_from_unmatched sn unmatched matched npm dataset log).1
         = unmatched.filter
             (fun item =>
               !(((npm.lookup dataset).getD []).any
                  (ruleExempts sn ((matched.map (cleanNorm sn)).toFinset)
                    (cleanNorm sn item))))) := by
  constructor
  · intro sn unmatched matched npm dataset log h
    unfold remove_non_punished_from_unmatched
    simp [h]
  · intro sn unmatched matched npm dataset log
    unfold remove_non_punished_from_unmatched
    rcases hl : npm.lookup dataset with _ | cm
    · simp
    · simp only [hl, Option.getD_some]
      by_cases hcm : cm.isEmpty = true
      · rw [List.isEmpty_iff] at hcm
        subst hcm
        simp
      · simp only [Bool.not_eq_true] at hcm
        simp only [hcm, Bool.false_eq_true, if_false]
        rw [prune_foldl]
        simp

/-! ### Lemmas about the metrics computer -/

theorem roundHalfEven_nonneg {q : ℚ} (hq : 0 ≤ q) : 0 ≤ roundHalfEven q := by
  unfold roundHalfEven
  have hf : (0 : ℤ) ≤ ⌊q⌋ := Int.floor_nonneg.mpr hq
  simp only []
  split
  · exact hf
  · split
    · omega
    · split <;> omega

theorem pyround_nonneg {q : ℚ} (hq : 0 ≤ q) (n : Nat) : 0 ≤ pyround q n := by
  unfold pyround
  apply div_nonneg
  · exact_mod_cast roundHalfEven_nonneg (by positivity)
  · positivity

theorem calculate_f_measure_eq_fbeta_spec {p r beta : ℚ} (hp : 0 ≤ p) (hr : 0 ≤ r)
    (hb : 0 < beta) : calculate_f_measure p r beta = fbeta_spec beta p r := by
  unfold calculate_f_measure fbeta_spec
  by_cases h : p + r = 0
  · have hp0 : p = 0 := by nlinarith
    have hr0 : r = 0 := by nlinarith
    simp [h, hp0, hr0]
  · have hd : beta ^ 2 * p + r ≠ 0 := by
      intro hd
      have hb2 : 0 < beta ^ 2 := by positivity
      have h1 : beta ^ 2 * p = 0 := by nlinarith
      have h2 : r = 0 := by nlinarith
      have h3 : p = 0 := by
        rcases mul_eq_zero.mp h1 with h | h
        · exact absurd h (by positivity)
        · exact h
      exact h (by rw [h2, h3, add_zero])
    simp [h, hd]

/-- Precision field of `compute_metrics`, unfolded. -/
theorem compute_metrics_precision {α β : Type} [DecidableEq β]
    (matched unmatched : List α) (remaining_gold : Finset β) (round_idx : Nat) :
    (compute_metrics matched unmatched remaining_gold round_idx).precision
      = if matched.length + unmatched.length ≠ 0 then
          pyround ((matched.length : ℚ) / ((matched.length + unmatched.length : Nat) : ℚ)) 3
        else 0 := rfl

/-- Recall field of `compute_metrics`, unfolded. -/
theorem compute_metrics_recall {α β : Type} [DecidableEq β]
    (matched unmatched : List α) (remaining_gold : Finset β) (round_idx : Nat) :
    (compute_metrics matched unmatched remaining_gold round_idx).recall'
      = if matched.length + remaining_gold.card ≠ 0 then
          pyround ((matched.length : ℚ) / ((matched.length + remaining_gold.card : Nat) : ℚ)) 3
        else 0 := rfl

/-- F-score fields of `compute_metrics`, unfolded. -/
theorem compute_metrics_f05 {α β : Type} [DecidableEq β]
    (matched unmatched : List α) (remaining_gold : Finset β) (round_idx : Nat) :
    (compute_metrics matched unmatched remaining_gold round_idx).f05
      = pyround (calculate_f_measure
          (compute_metrics matched unmatched remaining_gold round_idx).precision
          (compute_metrics matched unmatched remaining_gold round_idx).recall' (1 / 2)) 3 := rfl

theorem compute_metrics_f1 {α β : Type} [DecidableEq β]
    (matched unmatched : List α) (remaining_gold : Finset β) (round_idx : Nat) :
    (compute_metrics matched unmatched remaining_gold round_idx).f1
      = pyround (calculate_f_measure
          (compute_metrics matched unmatched remaining_gold round_idx).precision
          (compute_metrics matched unmatched remaining_gold round_idx).recall' 1) 3 := rfl

theorem compute_metrics_f2 {α β : Type} [DecidableEq β]
    (matched unmatched : List α) (remaining_gold : Finset β) (round_idx : Nat) :
    (compute_metrics matched unmatched remaining_gold round_idx).f2
      = pyround (calculate_f_measure
          (compute_metrics matched unmatched remaining_gold round_idx).precision
          (compute_metrics matched unmatched remaining_gold round_idx).recall' 2) 3 := rfl

theorem compute_metrics_precision_nonneg {α β : Type} [DecidableEq β]
    (matched unmatched : List α) (remaining_gold : Finset β) (round_idx : Nat) :
    0 ≤ (compute_metrics matched unmatched remaining_gold round_idx).precision := by
  rw [compute_metrics_precision]
  split
  · exact pyround_nonneg (by positivity) 3
  · exact le_refl 0

theorem compute_metrics_recall_nonneg {α β : Type} [DecidableEq β]
    (matched unmatched : List α) (remaining_gold : Finset β) (round_idx : Nat) :
    0 ≤ (compute_metrics matched unmatched remaining_gold round_idx).recall' := by
  rw [compute_metrics_recall]
  split
  · exact pyround_nonneg (by positivity) 3
  · exact le_refl 0

/-- Rounding of 1/3 to three decimals. -/
theorem pyround_one_third : pyround ((1 : ℚ) / 3) 3 = 333 / 1000 := by
  have hq : ((1 : ℚ) / 3) * 10 ^ 3 = 1000 / 3 := by norm_num
  have hf : ⌊(1000 / 3 : ℚ)⌋ = 333 := by
    rw [Int.floor_eq_iff]
    constructor <;> norm_num
  unfold pyround roundHalfEven
  rw [hq, hf]
  norm_num

/-- C3 counterexample: with 1 matched term, 2 unmatched terms and an empty
leftover gold set, the code reports Precision = 0.333, not the exact
quotient TP/(TP+FP) = 1/3 demanded by the claim (the source rounds every
reported value to three decimals). -/
theorem C3_counterexample :
    (compute_metrics (["a"] : List String) (["b", "c"]) (∅ : Finset String) 0).precision
      ≠ 1 / 3 := by
  have hp : (compute_metrics (["a"] : List String) (["b", "c"]) (∅ : Finset String) 0).precision
      = pyround ((1 : ℚ) / 3) 3 := by
    rw [compute_metrics_precision]
    norm_num
  rw [hp, pyround_one_third]
  norm_num

/-- C3 (amended): `compute_metrics` returns TP, FP, FN as the lengths of
`matched`, `unmatched` and the card of `remaining_gold`, precision and
recall as the 3-decimal Python rounding of the claimed quotients (0 when
the denominator is 0), and each F-β (β ∈ {0.5, 1, 2}) as the 3-decimal
rounding of `(1+β²)·P·R / (β²·P+R)` — 0 when that denominator is 0 —
computed from the already-rounded precision P and recall R. -/
theorem C3_compute_metrics_formulas {α β : Type} [DecidableEq β]
    (matched unmatched : List α) (remaining_gold : Finset β) (round_idx : Nat) :
    (compute_metrics matched unmatched remaining_gold round_idx).tp = matched.length ∧
    (compute_metrics matched unmatched remaining_gold round_idx).fp = unmatched.length ∧
    (compute_metrics matched unmatched remaining_gold round_idx).fn = remaining_gold.card ∧
    (compute_metrics matched unmatched remaining_gold round_idx).precision
      = (if 0 < matched.length + unmatched.length then
           pyround ((matched.length : ℚ) / ((matched.length + unmatched.length : Nat) : ℚ)) 3
         else 0) ∧
    (compute_metrics matched unmatched remaining_gold round_idx).recall'
      = (if 0 < matched.length + remaining_gold.card then
           pyround ((matched.length : ℚ) / ((matched.length + remaining_gold.card : Nat) : ℚ)) 3
         else 0) ∧
    (compute_metrics matched unmatched remaining_gold round_idx).f05
      = pyround (fbeta_spec (1 / 2)
          (compute_metrics matched unmatched remaining_gold round_idx).precision
          (compute_metrics matched unmatched remaining_gold round_idx).recall') 3 ∧
    (compute_metrics matched unmatched remaining_gold round_idx).f1
      = pyround (fbeta_spec 1
          (compute_metrics matched unmatched remaining_gold round_idx).precision
          (compute_metrics matched unmatched remaining_gold round_idx).recall') 3 ∧
    (compute_metrics matched unmatched remaining_gold round_idx).f2
      = pyround (fbeta_spec 2
          (compute_metrics matched unmatched remaining_gold round_idx).precision
          (compute_metrics matched unmatched remaining_gold round_idx).recall') 3 := by
  have hp := compute_metrics_precision_nonneg matched unmatched remaining_gold round_idx
  have hr := compute_metrics_recall_nonneg matched unmatched remaining_gold round_idx
  refine ⟨rfl, rfl, rfl, ?_, ?_, ?_, ?_, ?_⟩
  · rw [compute_metrics_precision]
    by_cases h : matched.length + unmatched.length = 0
    · simp [h]
    · rw [if_pos h, if_pos (Nat.pos_of_ne_zero h)]
  · rw [compute_metrics_recall]
    by_cases h : matched.length + remaining_gold.card = 0
    · simp [h]
    · rw [if_pos h, if_pos (Nat.pos_of_ne_zero h)]
  · rw [compute_metrics_f05, calculate_f_measure_eq_fbeta_spec hp hr (by norm_num)]
  · rw [compute_metrics_f1, calculate_f_measure_eq_fbeta_spec hp hr (by norm_num)]
  · rw [compute_metrics_f2, calculate_f_measure_eq_fbeta_spec hp hr (by norm_num)]

/-! ### The standards-preparation prefixes (C4) -/

/-- C4 counterexample: a dataset key that has a gold standard but no
synonym-table entry makes both evaluation entry points raise `KeyError`
(the sources index `synonym_dict[dataset_key]` / `SYNONYM_DICT_CLASS[ds]`
directly instead of using `.get`), refuting the claim that a missing
synonym-table entry is treated as an empty set. -/
theorem C4_counterexample :
    run_experiment_prepare (fun _ => none) "camperplus"
        [("camperplus", ["camper"])] [] [] = .error () ∧
    evaluation_experiment_prepare (fun _ => none) "camperplus"
        [("camperplus", [("a", "b")])] [] [] = .error () :=
  ⟨rfl, rfl⟩

/-- C4 (amended): for a dataset key with registered gold-standard and
synonym-table entries, both entry points proceed (return `.ok`) when the
key has no silver-standard entry, producing an empty silver set, and a
missing non-punishment entry makes the non-punishment filter a no-op; a
missing synonym-table entry, however, raises `KeyError`
(see the counterexample). -/
theorem C4_missing_tiers_tolerated :
    (∀ (sn : Singularizer) (dataset : String)
       (gdict sdict : List (String × List String))
       (syndict : List (String × List (String × List String)))
       (gold_raw : List String) (compact : List (String × List String)),
       gdict.lookup (pyLower dataset) = some gold_raw →
       syndict.lookup (pyLower dataset) = some compact →
       sdict.lookup (pyLower dataset) = none →
       run_experiment_prepare sn dataset gdict sdict syndict
         = .ok ((gold_raw.map (normalize_word sn)).toFinset, ∅,
                expand_synonym_mapping sn compact)) ∧
    (∀ (sn : Singularizer) (dataset : String)
       (gdict sdict : List (String × List APair))
       (syndict : List (String × List (String × List String)))
       (gold_raw : List APair) (compact : List (String × List String)),
       gdict.lookup (pyLower dataset) = some gold_raw →
       syndict.lookup (pyLower dataset) = some compact →
       sdict.lookup (pyLower dataset) = none →
       evaluation_experiment_prepare sn dataset gdict sdict syndict
         = .ok ((gold_raw.map
                   (fun pair => pairFS (normalize_word sn pair.1, normalize_word sn pair.2))).toFinset,
                ∅, expand_synonym_mapping sn compact)) ∧
    (∀ (sn : Singularizer) (unmatched matched : List String)
       (npm : List (String × List (String × List String))) (dataset log : String),
       npm.lookup dataset = none →
       remove_non_punished_from_unmatched sn unmatched matched npm dataset log
         = (unmatched, log)) := by
  refine ⟨?_, ?_, ?_⟩
  · intro sn dataset gdict sdict syndict gold_raw compact hg hs hsil
    unfold run_experiment_prepare
    simp only [hg, hs, hsil, Option.getD_none, List.map_nil, List.toFinset_nil]
  · intro sn dataset gdict sdict syndict gold_raw compact hg hs hsil
    unfold evaluation_experiment_prepare
    simp only [hg, hs, hsil, Option.getD_none, List.map_nil, List.toFinset_nil]
  · intro sn unmatched matched npm dataset log h
    unfold remove_non_punished_from_unmatched
    simp [h]

/-! ### Invariant of the class matcher -/

theorem Store.write_read {α : Type} (σ : Store α) (a b : Nat) (v : Finset α) :
    (σ.write a v) b = if b = a then v else σ b := rfl

theorem erase_sdiff_ghost {α : Type} [DecidableEq α] (g : Finset α) (G : List α) (x : α) :
    (g \ G.toFinset).erase x = g \ (G ++ [x]).toFinset := by
  rw [Finset.erase_eq, sdiff_sdiff]
  congr 1
  simp

theorem ghost_append_nodup {α : Type} [DecidableEq α] {g : Finset α} {G : List α} {x : α}
    (hx : x ∈ g \ G.toFinset) (hnd : G.Nodup) : (G ++ [x]).Nodup := by
  rw [Finset.mem_sdiff, List.mem_toFinset] at hx
  simp [List.nodup_append, hnd, hx.2]

theorem ghost_append_subset {α : Type} [DecidableEq α] {g : Finset α} {G : List α} {x : α}
    (hx : x ∈ g \ G.toFinset) (hsub : G.toFinset ⊆ g) : (G ++ [x]).toFinset ⊆ g := by
  rw [Finset.mem_sdiff] at hx
  intro y hy
  simp only [List.toFinset_append, List.toFinset_cons, List.toFinset_nil,
    Finset.mem_union, Finset.mem_insert, Finset.not_mem_empty, or_false] at hy
  rcases hy with hy | hy
  · exact hsub hy
  · exact hy ▸ hx.1

/-- Run-time invariant of the class matcher: the caller's sets at addresses
0 and 1 keep their initial values, the full-view gold copy is the initial
gold minus the ghost-consumed items, it stays below the mandatory view,
which stays below the initial gold, the consumed items are distinct members
of the initial gold, and the same bookkeeping holds for silver. -/
structure CInv (g s : Finset String) (st : CState) : Prop where
  h0 : st.store 0 = g
  h1 : st.store 1 = s
  h2 : st.store 2 = g \ st.ghostGold.toFinset
  h23 : st.store 2 ⊆ st.store 3
  h3 : st.store 3 ⊆ g
  gnd : st.ghostGold.Nodup
  gsub : st.ghostGold.toFinset ⊆ g
  h4 : st.store 4 = s \ st.ghostSilv.toFinset
  snd : st.ghostSilv.Nodup
  ssub : st.ghostSilv.toFinset ⊆ s

theorem exactVars_spec (g s : Finset String) (st : CState) (w : String) (opt : Bool)
    (vars : List String) (hinv : CInv g s st) :
    ∃ st2, exactVars st w opt vars = .ok st2 ∧ CInv g s st2 ∧
      st2.mand_matched.length + st2.opt_matched.length + st2.unmatched_pairs.length
        = st.mand_matched.length + st.opt_matched.length + st.unmatched_pairs.length + 1 ∧
      st2.mand_un = st.mand_un ∧ st2.opt_un = st.opt_un := by
  induction vars generalizing st with
  | nil =>
    refine ⟨_, rfl, ?_, ?_, rfl, rfl⟩
    · exact ⟨hinv.h0, hinv.h1, hinv.h2, hinv.h23, hinv.h3, hinv.gnd, hinv.gsub,
        hinv.h4, hinv.snd, hinv.ssub⟩
    · simp only [List.length_append, List.length_cons, List.length_nil]
      omega
  | cons var rest ih =>
    by_cases hg : var ∈ st.store 2
    · have hx : var ∈ g \ st.ghostGold.toFinset := hinv.h2 ▸ hg
      cases opt with
      | false =>
        have hm : var ∈ (st.store.write 2 ((st.store 2).erase var)) 3 :=
          by rw [Store.write_read]; exact hinv.h23 hg
        have hrem : (st.store.write 2 ((st.store 2).erase var)).removeE 3 var
            = .ok ((st.store.write 2 ((st.store 2).erase var)).write 3
                (((st.store.write 2 ((st.store 2).erase var)) 3).erase var)) := by
          unfold Store.removeE
          rw [if_pos hm]
        simp only [exactVars]
        rw [if_pos hg]
        simp only [Bool.not_false, if_true, hrem]
        refine ⟨_, rfl, ?_, ?_, rfl, rfl⟩
        · refine ⟨?_, ?_, ?_, ?_, ?_, ?_, ?_, ?_, ?_, ?_⟩
          · simp only [Store.write_read]; norm_num; exact hinv.h0
          · simp only [Store.write_read]; norm_num; exact hinv.h1
          · simp only [Store.write_read]; norm_num
            rw [hinv.h2, erase_sdiff_ghost]
            simp
          · simp only [Store.write_read]; norm_num
            exact Finset.erase_subset_erase var hinv.h23
          · simp only [Store.write_read]; norm_num
            exact (Finset.erase_subset ..).trans hinv.h3
          · exact ghost_append_nodup hx hinv.gnd
          · exact ghost_append_subset hx hinv.gsub
          · simp only [Store.write_read]; norm_num; exact hinv.h4
          · exact hinv.snd
          · exact hinv.ssub
        · simp only [List.length_append, List.length_cons, List.length_nil]
          omega
      | true =>
        simp only [exactVars]
        rw [if_pos hg]
        simp only [Bool.not_true, Bool.false_eq_true, if_false]
        refine ⟨_, rfl, ?_, ?_, rfl, rfl⟩
        · refine ⟨?_, ?_, ?_, ?_, ?_, ?_, ?_, ?_, ?_, ?_⟩
          · simp only [Store.write_read]; norm_num; exact hinv.h0
          · simp only [Store.write_read]; norm_num; exact hinv.h1
          · simp only [Store.write_read]; norm_num
            rw [hinv.h2, erase_sdiff_ghost]
            simp
          · simp only [Store.write_read]; norm_num
            exact (Finset.erase_subset ..).trans hinv.h23
          · simp only [Store.write_read]; norm_num; exact hinv.h3
          · exact ghost_append_nodup hx hinv.gnd
          · exact ghost_append_subset hx hinv.gsub
          · simp only [Store.write_read]; norm_num; exact hinv.h4
          · exact hinv.snd
          · exact hinv.ssub
        · simp only [List.length_append, List.length_cons, List.length_nil]
          omega
    · by_cases hs : var ∈ st.store 4
      · have hx : var ∈ s \ st.ghostSilv.toFinset := hinv.h4 ▸ hs
        simp only [exactVars]
        rw [if_neg hg, if_pos hs]
        refine ⟨_, rfl, ?_, ?_, rfl, rfl⟩
        · refine ⟨?_, ?_, ?_, ?_, ?_, ?_, ?_, ?_, ?_, ?_⟩
          · simp only [Store.write_read]; norm_num; exact hinv.h0
          · simp only [Store.write_read]; norm_num; exact hinv.h1
          · simp only [Store.write_read]; norm_num; exact hinv.h2
          · simp only [Store.write_read]; norm_num; exact hinv.h23
          · simp only [Store.write_read]; norm_num; exact hinv.h3
          · exact hinv.gnd
          · exact hinv.gsub
          · simp only [Store.write_read]; norm_num
            rw [hinv.h4, erase_sdiff_ghost]
            simp
          · exact ghost_append_nodup hx hinv.snd
          · exact ghost_append_subset hx hinv.ssub
        · cases opt <;>
            simp only [List.length_append, List.length_cons, List.length_nil,
              if_true, if_false, Bool.false_eq_true] <;>
            omega
      · have hstep : exactVars st w opt (var :: rest) = exactVars st w opt rest := by
          simp only [exactVars]
          rw [if_neg hg, if_neg hs]
        rw [hstep]
        exact ih st hinv

theorem exactPass_spec (g s : Finset String) (st : CState)
    (l : List (String × Bool)) (hinv : CInv g s st) :
    ∃ st2, exactPass st l = .ok st2 ∧ CInv g s st2 ∧
      st2.mand_matched.length + st2.opt_matched.length + st2.unmatched_pairs.length
        = st.mand_matched.length + st.opt_matched.length + st.unmatched_pairs.length
            + l.length ∧
      st2.mand_un = st.mand_un ∧ st2.opt_un = st.opt_un := by
  induction l generalizing st with
  | nil => exact ⟨st, rfl, hinv, by simp, rfl, rfl⟩
  | cons p rest ih =>
    obtain ⟨st1, heq1, hinv1, hc1, hmu1, hou1⟩ :=
      exactVars_spec g s st p.1 p.2 (variants p.1) hinv
    obtain ⟨st2, heq2, hinv2, hc2, hmu2, hou2⟩ := ih st1 hinv1
    refine ⟨st2, ?_, hinv2, by simp only [List.length_cons]; omega,
      hmu2.trans hmu1, hou2.trans hou1⟩
    simp only [exactPass, heq1, heq2]

theorem synCandLoop_spec (g s : Finset String) (st : CState) (w : String) (opt : Bool)
    (cands : List String) (hinv : CInv g s st) :
    ∃ r, synCandLoop st w opt cands = .ok r ∧ CInv g s r.1 ∧
      (r.2 = true →
        r.1.mand_matched.length + r.1.opt_matched.length
            = st.mand_matched.length + st.opt_matched.length + 1 ∧
        r.1.mand_un = st.mand_un ∧ r.1.opt_un = st.opt_un ∧
        r.1.unmatched_pairs = st.unmatched_pairs) ∧
      (r.2 = false → r.1 = st) := by
  induction cands generalizing st with
  | nil =>
    refine ⟨(st, false), rfl, hinv, ?_, ?_⟩
    · intro h
      exact absurd h (by simp)
    · intro _
      rfl
  | cons c rest ih =>
    by_cases hg : c ∈ st.store 2
    · have hx : c ∈ g \ st.ghostGold.toFinset := hinv.h2 ▸ hg
      cases opt with
      | false =>
        have hm : c ∈ (st.store.write 2 ((st.store 2).erase c)) 3 :=
          by rw [Store.write_read]; exact hinv.h23 hg
        have hrem : (st.store.write 2 ((st.store 2).erase c)).removeE 3 c
            = .ok ((st.store.write 2 ((st.store 2).erase c)).write 3
                (((st.store.write 2 ((st.store 2).erase c)) 3).erase c)) := by
          unfold Store.removeE
          rw [if_pos hm]
        simp only [synCandLoop]
        rw [if_pos hg]
        simp only [Bool.not_false, if_true, hrem]
        refine ⟨_, rfl, ?_, ?_, by intro h; cases h⟩
        · refine ⟨?_, ?_, ?_, ?_, ?_, ?_, ?_, ?_, ?_, ?_⟩
          · simp only [Store.write_read]; norm_num; exact hinv.h0
          · simp only [Store.write_read]; norm_num; exact hinv.h1
          · simp only [Store.write_read]; norm_num
            rw [hinv.h2, erase_sdiff_ghost]
            simp
          · simp only [Store.write_read]; norm_num
            exact Finset.erase_subset_erase c hinv.h23
          · simp only [Store.write_read]; norm_num
            exact (Finset.erase_subset ..).trans hinv.h3
          · exact ghost_append_nodup hx hinv.gnd
          · exact ghost_append_subset hx hinv.gsub
          · simp only [Store.write_read]; norm_num; exact hinv.h4
          · exact hinv.snd
          · exact hinv.ssub
        · intro _
          refine ⟨?_, rfl, rfl, rfl⟩
          simp only [List.length_append, List.length_cons, List.length_nil]
          omega
      | true =>
        simp only [synCandLoop]
        rw [if_pos hg]
        simp only [Bool.not_true, Bool.false_eq_true, if_false]
        refine ⟨_, rfl, ?_, ?_, by intro h; cases h⟩
        · refine ⟨?_, ?_, ?_, ?_, ?_, ?_, ?_, ?_, ?_, ?_⟩
          · simp only [Store.write_read]; norm_num; exact hinv.h0
          · simp only [Store.write_read]; norm_num; exact hinv.h1
          · simp only [Store.write_read]; norm_num
            rw [hinv.h2, erase_sdiff_ghost]
            simp
          · simp only [Store.write_read]; norm_num
            exact (Finset.erase_subset ..).trans hinv.h23
          · simp only [Store.write_read]; norm_num; exact hinv.h3
          · exact ghost_append_nodup hx hinv.gnd
          · exact ghost_append_subset hx hinv.gsub
          · simp only [Store.write_read]; norm_num; exact hinv.h4
          · exact hinv.snd
          · exact hinv.ssub
        · intro _
          refine ⟨?_, rfl, rfl, rfl⟩
          simp only [List.length_append, List.length_cons, List.length_nil]
          omega
    · by_cases hs : c ∈ st.store 4
      · have hx : c ∈ s \ st.ghostSilv.toFinset := hinv.h4 ▸ hs
        simp only [synCandLoop]
        rw [if_neg hg, if_pos hs]
        refine ⟨_, rfl, ?_, ?_, by intro h; cases h⟩
        · refine ⟨?_, ?_, ?_, ?_, ?_, ?_, ?_, ?_, ?_, ?_⟩
          · simp only [Store.write_read]; norm_num; exact hinv.h0
          · simp only [Store.write_read]; norm_num; exact hinv.h1
          · simp only [Store.write_read]; norm_num; exact hinv.h2
          · simp only [Store.write_read]; norm_num; exact hinv.h23
          · simp only [Store.write_read]; norm_num; exact hinv.h3
          · exact hinv.gnd
          · exact hinv.gsub
          · simp only [Store.write_read]; norm_num
            rw [hinv.h4, erase_sdiff_ghost]
            simp
          · exact ghost_append_nodup hx hinv.snd
          · exact ghost_append_subset hx hinv.ssub
        · intro _
          refine ⟨?_, rfl, rfl, rfl⟩
          cases opt <;>
            simp only [List.length_append, List.length_cons, List.length_nil,
              if_true, if_false, Bool.false_eq_true] <;>
            omega
      · have hstep : synCandLoop st w opt (c :: rest) = synCandLoop st w opt rest := by
          simp only [synCandLoop]
          rw [if_neg hg, if_neg hs]
        rw [hstep]
        exact ih st hinv

theorem synVarLoop_spec (g s : Finset String) (sm : List (String × String)) (st : CState)
    (w : String) (opt : Bool) (vars : List String) (hinv : CInv g s st) :
    ∃ st2, synVarLoop sm st w opt vars = .ok st2 ∧ CInv g s st2 ∧
      st2.mand_matched.length + st2.opt_matched.length + st2.mand_un.length
          + st2.opt_un.length
        = st.mand_matched.length + st.opt_matched.length + st.mand_un.length
            + st.opt_un.length + 1 ∧
      st2.unmatched_pairs = st.unmatched_pairs := by
  induction vars generalizing st with
  | nil =>
    refine ⟨_, rfl, ?_, ?_, rfl⟩
    · exact ⟨hinv.h0, hinv.h1, hinv.h2, hinv.h23, hinv.h3, hinv.gnd, hinv.gsub,
        hinv.h4, hinv.snd, hinv.ssub⟩
    · cases opt <;> simp <;> omega
  | cons var rest ih =>
    obtain ⟨r, heq, hinvr, htrue, hfalse⟩ :=
      synCandLoop_spec g s st w opt (generate_candidates var sm) hinv
    rcases r with ⟨st1, b⟩
    cases b with
    | true =>
      obtain ⟨hc, hmu, hou, hup⟩ := htrue rfl
      dsimp only at hc hmu hou hup
      refine ⟨st1, ?_, hinvr, ?_, hup⟩
      · simp only [synVarLoop, heq]
      · rw [hmu, hou]
        omega
    | false =>
      have hst1 : st1 = st := hfalse rfl
      subst hst1
      obtain ⟨st2, heq2, hinv2, hc2, hup2⟩ := ih st1 hinvr
      refine ⟨st2, ?_, hinv2, hc2, hup2⟩
      simp only [synVarLoop, heq, heq2]

theorem synPass_spec (g s : Finset String) (sm : List (String × String)) (st : CState)
    (l : List (String × Bool)) (hinv : CInv g s st) :
    ∃ st2, synPass sm st l = .ok st2 ∧ CInv g s st2 ∧
      st2.mand_matched.length + st2.opt_matched.length + st2.mand_un.length
          + st2.opt_un.length
        = st.mand_matched.length + st.opt_matched.length + st.mand_un.length
            + st.opt_un.length + l.length := by
  induction l generalizing st with
  | nil => exact ⟨st, rfl, hinv, by simp⟩
  | cons p rest ih =>
    obtain ⟨st1, heq1, hinv1, hc1, _⟩ := synVarLoop_spec g s sm st p.1 p.2 (variants p.1) hinv
    obtain ⟨st2, heq2, hinv2, hc2⟩ := ih st1 hinv1
    refine ⟨st2, ?_, hinv2, by simp only [List.length_cons]; omega⟩
    simp only [synPass, heq1, heq2]

theorem initialCState_inv (σ : Store String) : CInv (σ 0) (σ 1) (initialCState σ) := by
  refine ⟨?_, ?_, ?_, ?_, ?_, ?_, ?_, ?_, ?_, ?_⟩ <;>
    simp [initialCState, Store.write_read, Finset.Subset.refl]

/-- Master specification of the class matcher: it never raises, leaves the
caller's sets untouched, maintains the two gold views with the full view
below the mandatory view, accounts every consumed gold/silver item exactly
once in the ghost lists, and partitions the zipped input among the four
result lists. -/
theorem perform_matching_spec (words : List String) (is_optional : List Bool)
    (σ : Store String) (sm : List (String × String)) :
    ∃ st, perform_matching words is_optional σ sm = .ok st ∧
      CInv (σ 0) (σ 1) st ∧
      st.mand_matched.length + st.opt_matched.length + st.mand_un.length
          + st.opt_un.length = (words.zip is_optional).length := by
  obtain ⟨st1, heq1, hinv1, hc1, hmu1, hou1⟩ :=
    exactPass_spec (σ 0) (σ 1) (initialCState σ) (words.zip is_optional)
      (initialCState_inv σ)
  obtain ⟨st2, heq2, hinv2, hc2⟩ := synPass_spec (σ 0) (σ 1) sm st1 st1.unmatched_pairs hinv1
  refine ⟨finalLog st2, ?_, ?_, ?_⟩
  · simp only [perform_matching, heq1, heq2]
  · exact ⟨hinv2.h0, hinv2.h1, hinv2.h2, hinv2.h23, hinv2.h3, hinv2.gnd, hinv2.gsub,
      hinv2.h4, hinv2.snd, hinv2.ssub⟩
  · have hmu0 : st1.mand_un = [] := by rw [hmu1]; rfl
    have hou0 : st1.opt_un = [] := by rw [hou1]; rfl
    have h0 : st1.mand_matched.length + st1.opt_matched.length + st1.unmatched_pairs.length
        = (words.zip is_optional).length := by
      simpa [initialCState] using hc1
    show st2.mand_matched.length + st2.opt_matched.length + st2.mand_un.length
        + st2.opt_un.length = _
    rw [hc2, hmu0, hou0]
    simpa using h0

/-! ### Invariant of the association matcher -/

/-- Run-time invariant of the association matcher (same as `CInv`, over
frozensets of endpoint strings). -/
structure AInv (g s : Finset (Finset String)) (st : AState) : Prop where
  h0 : st.store 0 = g
  h1 : st.store 1 = s
  h2 : st.store 2 = g \ st.ghostGold.toFinset
  h23 : st.store 2 ⊆ st.store 3
  h3 : st.store 3 ⊆ g
  gnd : st.ghostGold.Nodup
  gsub : st.ghostGold.toFinset ⊆ g
  h4 : st.store 4 = s \ st.ghostSilv.toFinset
  snd : st.ghostSilv.Nodup
  ssub : st.ghostSilv.toFinset ⊆ s

theorem findRow_mem {cx : String} {rem : Finset (Finset String)} {cys : List String}
    {p : Finset String} (h : findRow cx rem cys = some p) : p ∈ rem := by
  induction cys with
  | nil => exact absurd h (by simp [findRow])
  | cons cy rest ih =>
    by_cases hc : pairFS (cx, cy) ∈ rem
    · rw [findRow, if_pos hc] at h
      cases h
      exact hc
    · rw [findRow, if_neg hc] at h
      exact ih h

theorem findRow_isSome_iff (cx : String) (rem : Finset (Finset String)) (cys : List String) :
    (findRow cx rem cys).isSome = true ↔ ∃ cy ∈ cys, pairFS (cx, cy) ∈ rem := by
  induction cys with
  | nil => simp [findRow]
  | cons cy rest ih =>
    by_cases hc : pairFS (cx, cy) ∈ rem
    · simp [findRow, if_pos hc, hc]
    · rw [findRow, if_neg hc]
      rw [ih]
      constructor
      · rintro ⟨cy2, hm, hp⟩
        exact ⟨cy2, List.mem_cons_of_mem cy hm, hp⟩
      · rintro ⟨cy2, hm, hp⟩
        rcases List.mem_cons.mp hm with h | h
        · exact absurd (h ▸ hp) hc
        · exact ⟨cy2, h, hp⟩

theorem findPair_mem {rem : Finset (Finset String)} {cxs cys : List String}
    {p : Finset String} (h : findPair rem cxs cys = some p) : p ∈ rem := by
  induction cxs with
  | nil => exact absurd h (by simp [findPair])
  | cons cx rest ih =>
    rw [findPair] at h
    rcases hr : findRow cx rem cys with _ | q
    · rw [hr] at h
      exact ih h
    · rw [hr] at h
      cases h
      exact findRow_mem hr

theorem findPair_isSome_iff (rem : Finset (Finset String)) (cxs cys : List String) :
    (findPair rem cxs cys).isSome = true
      ↔ ∃ cx ∈ cxs, ∃ cy ∈ cys, pairFS (cx, cy) ∈ rem := by
  induction cxs with
  | nil => simp [findPair]
  | cons cx rest ih =>
    rw [findPair]
    rcases hr : findRow cx rem cys with _ | q
    · simp only [Option.isSome_none]
      rw [ih]
      constructor
      · rintro ⟨cx2, hm, hrest⟩
        exact ⟨cx2, List.mem_cons_of_mem cx hm, hrest⟩
      · rintro ⟨cx2, hm, hrest⟩
        rcases List.mem_cons.mp hm with h | h
        · subst h
          have : (findRow cx2 rem cys).isSome = true :=
            (findRow_isSome_iff cx2 rem cys).mpr hrest
          rw [hr] at this
          exact absurd this (by simp)
        · exact ⟨cx2, h, hrest⟩
    · simp only [Option.isSome_some, true_iff]
      have : (findRow cx rem cys).isSome = true := by rw [hr]; rfl
      obtain ⟨cy, hm, hp⟩ := (findRow_isSome_iff cx rem cys).mp this
      exact ⟨cx, List.mem_cons_self cx rest, cy, hm, hp⟩

theorem assocExactStep_spec (g s : Finset (Finset String)) (st : AState) (w : APair)
    (opt : Bool) (hinv : AInv g s st) :
    ∃ st2, assocExactStep st w opt = .ok st2 ∧ AInv g s st2 ∧
      st2.mand_matched.length + st2.opt_matched.length + st2.unmatched_pairs.length
        = st.mand_matched.length + st.opt_matched.length + st.unmatched_pairs.length + 1 ∧
      st2.mand_un = st.mand_un ∧ st2.opt_un = st.opt_un := by
  by_cases hg : pairFS w ∈ st.store 2
  · have hx : pairFS w ∈ g \ st.ghostGold.toFinset := hinv.h2 ▸ hg
    cases opt with
    | false =>
      have hm : pairFS w ∈ (st.store.write 2 ((st.store 2).erase (pairFS w))) 3 :=
        by rw [Store.write_read]; exact hinv.h23 hg
      have hrem : (st.store.write 2 ((st.store 2).erase (pairFS w))).removeE 3 (pairFS w)
          = .ok ((st.store.write 2 ((st.store 2).erase (pairFS w))).write 3
              (((st.store.write 2 ((st.store 2).erase (pairFS w))) 3).erase (pairFS w))) := by
        unfold Store.removeE
        rw [if_pos hm]
      simp only [assocExactStep]
      rw [if_pos hg]
      simp only [Bool.not_false, if_true, hrem]
      refine ⟨_, rfl, ?_, ?_, rfl, rfl⟩
      · refine ⟨?_, ?_, ?_, ?_, ?_, ?_, ?_, ?_, ?_, ?_⟩
        · simp only [Store.write_read]; norm_num; exact hinv.h0
        · simp only [Store.write_read]; norm_num; exact hinv.h1
        · simp only [Store.write_read]; norm_num
          rw [hinv.h2, erase_sdiff_ghost]
          simp
        · simp only [Store.write_read]; norm_num
          exact Finset.erase_subset_erase (pairFS w) hinv.h23
        · simp only [Store.write_read]; norm_num
          exact (Finset.erase_subset ..).trans hinv.h3
        · exact ghost_append_nodup hx hinv.gnd
        · exact ghost_append_subset hx hinv.gsub
        · simp only [Store.write_read]; norm_num; exact hinv.h4
        · exact hinv.snd
        · exact hinv.ssub
      · simp only [List.length_append, List.length_cons, List.length_nil]
        omega
    | true =>
      simp only [assocExactStep]
      rw [if_pos hg]
      simp only [Bool.not_true, Bool.false_eq_true, if_false]
      refine ⟨_, rfl, ?_, ?_, rfl, rfl⟩
      · refine ⟨?_, ?_, ?_, ?_, ?_, ?_, ?_, ?_, ?_, ?_⟩
        · simp only [Store.write_read]; norm_num; exact hinv.h0
        · simp only [Store.write_read]; norm_num; exact hinv.h1
        · simp only [Store.write_read]; norm_num
          rw [hinv.h2, erase_sdiff_ghost]
          simp
        · simp only [Store.write_read]; norm_num
          exact (Finset.erase_subset ..).trans hinv.h23
        · simp only [Store.write_read]; norm_num; exact hinv.h3
        · exact ghost_append_nodup hx hinv.gnd
        · exact ghost_append_subset hx hinv.gsub
        · simp only [Store.write_read]; norm_num; exact hinv.h4
        · exact hinv.snd
        · exact hinv.ssub
      · simp only [List.length_append, List.length_cons, List.length_nil]
        omega
  · by_cases hs : pairFS w ∈ st.store 4
    · have hx : pairFS w ∈ s \ st.ghostSilv.toFinset := hinv.h4 ▸ hs
      simp only [assocExactStep]
      rw [if_neg hg, if_pos hs]
      refine ⟨_, rfl, ?_, ?_, rfl, rfl⟩
      · refine ⟨?_, ?_, ?_, ?_, ?_, ?_, ?_, ?_, ?_, ?_⟩
        · simp only [Store.write_read]; norm_num; exact hinv.h0
        · simp only [Store.write_read]; norm_num; exact hinv.h1
        · simp only [Store.write_read]; norm_num; exact hinv.h2
        · simp only [Store.write_read]; norm_num; exact hinv.h23
        · simp only [Store.write_read]; norm_num; exact hinv.h3
        · exact hinv.gnd
        · exact hinv.gsub
        · simp only [Store.write_read]; norm_num
          rw [hinv.h4, erase_sdiff_ghost]
          simp
        · exact ghost_append_nodup hx hinv.snd
        · exact ghost_append_subset hx hinv.ssub
      · cases opt <;>
          simp only [List.length_append, List.length_cons, List.length_nil,
            if_true, if_false, Bool.false_eq_true] <;>
          omega
    · simp only [assocExactStep]
      rw [if_neg hg, if_neg hs]
      refine ⟨_, rfl, ?_, ?_, rfl, rfl⟩
      · exact ⟨hinv.h0, hinv.h1, hinv.h2, hinv.h23, hinv.h3, hinv.gnd, hinv.gsub,
          hinv.h4, hinv.snd, hinv.ssub⟩
      · simp only [List.length_append, List.length_cons, List.length_nil]
        omega

theorem assocExactPass_spec (g s : Finset (Finset String)) (st : AState)
    (l : List (APair × Bool)) (hinv : AInv g s st) :
    ∃ st2, assocExactPass st l = .ok st2 ∧ AInv g s st2 ∧
      st2.mand_matched.length + st2.opt_matched.length + st2.unmatched_pairs.length
        = st.mand_matched.length + st.opt_matched.length + st.unmatched_pairs.length
            + l.length ∧
      st2.mand_un = st.mand_un ∧ st2.opt_un = st.opt_un := by
  induction l generalizing st with
  | nil => exact ⟨st, rfl, hinv, by simp, rfl, rfl⟩
  | cons p rest ih =>
    obtain ⟨st1, heq1, hinv1, hc1, hmu1, hou1⟩ := assocExactStep_spec g s st p.1 p.2 hinv
    obtain ⟨st2, heq2, hinv2, hc2, hmu2, hou2⟩ := ih st1 hinv1
    refine ⟨st2, ?_, hinv2, by simp only [List.length_cons]; omega,
      hmu2.trans hmu1, hou2.trans hou1⟩
    simp only [assocExactPass, heq1, heq2]

theorem assocSynStep_spec (g s : Finset (Finset String)) (sm : List (String × String))
    (st : AState) (w : APair) (opt : Bool) (hinv : AInv g s st) :
    ∃ st2, assocSynStep sm st w opt = .ok st2 ∧ AInv g s st2 ∧
      st2.mand_matched.length + st2.opt_matched.length + st2.mand_un.length
          + st2.opt_un.length
        = st.mand_matched.length + st.opt_matched.length + st.mand_un.length
            + st.opt_un.length + 1 ∧
      st2.unmatched_pairs = st.unmatched_pairs := by
  rcases hfg : findPair (st.store 2) (generate_candidates w.1 sm)
      (generate_candidates w.2 sm) with _ | p
  · rcases hfs : findPair (st.store 4) (generate_candidates w.1 sm)
        (generate_candidates w.2 sm) with _ | p
    · simp only [assocSynStep, hfg, hfs]
      refine ⟨_, rfl, ?_, ?_, rfl⟩
      · exact ⟨hinv.h0, hinv.h1, hinv.h2, hinv.h23, hinv.h3, hinv.gnd, hinv.gsub,
          hinv.h4, hinv.snd, hinv.ssub⟩
      · cases opt <;>
          simp only [List.length_append, List.length_cons, List.length_nil,
            if_true, if_false, Bool.false_eq_true] <;>
          omega
    · have hp : p ∈ st.store 4 := findPair_mem hfs
      have hx : p ∈ s \ st.ghostSilv.toFinset := hinv.h4 ▸ hp
      simp only [assocSynStep, hfg, hfs]
      refine ⟨_, rfl, ?_, ?_, rfl⟩
      · refine ⟨?_, ?_, ?_, ?_, ?_, ?_, ?_, ?_, ?_, ?_⟩
        · simp only [Store.write_read]; norm_num; exact hinv.h0
        · simp only [Store.write_read]; norm_num; exact hinv.h1
        · simp only [Store.write_read]; norm_num; exact hinv.h2
        · simp only [Store.write_read]; norm_num; exact hinv.h23
        · simp only [Store.write_read]; norm_num; exact hinv.h3
        · exact hinv.gnd
        · exact hinv.gsub
        · simp only [Store.write_read]; norm_num
          rw [hinv.h4, erase_sdiff_ghost]
          simp
        · exact ghost_append_nodup hx hinv.snd
        · exact ghost_append_subset hx hinv.ssub
      · cases opt <;>
          simp only [List.length_append, List.length_cons, List.length_nil,
            if_true, if_false, Bool.false_eq_true] <;>
          omega
  · have hp : p ∈ st.store 2 := findPair_mem hfg
    have hx : p ∈ g \ st.ghostGold.toFinset := hinv.h2 ▸ hp
    cases opt with
    | false =>
      have hm : p ∈ (st.store.write 2 ((st.store 2).erase p)) 3 :=
        by rw [Store.write_read]; exact hinv.h23 hp
      have hrem : (st.store.write 2 ((st.store 2).erase p)).removeE 3 p
          = .ok ((st.store.write 2 ((st.store 2).erase p)).write 3
              (((st.store.write 2 ((st.store 2).erase p)) 3).erase p)) := by
        unfold Store.removeE
        rw [if_pos hm]
      simp only [assocSynStep, hfg]
      simp only [Bool.not_false, if_true, hrem]
      refine ⟨_, rfl, ?_, ?_, rfl⟩
      · refine ⟨?_, ?_, ?_, ?_, ?_, ?_, ?_, ?_, ?_, ?_⟩
        · simp only [Store.write_read]; norm_num; exact hinv.h0
        · simp only [Store.write_read]; norm_num; exact hinv.h1
        · simp only [Store.write_read]; norm_num
          rw [hinv.h2, erase_sdiff_ghost]
          simp
        · simp only [Store.write_read]; norm_num
          exact Finset.erase_subset_erase p hinv.h23
        · simp only [Store.write_read]; norm_num
          exact (Finset.erase_subset ..).trans hinv.h3
        · exact ghost_append_nodup hx hinv.gnd
        · exact ghost_append_subset hx hinv.gsub
        · simp only [Store.write_read]; norm_num; exact hinv.h4
        · exact hinv.snd
        · exact hinv.ssub
      · simp only [List.length_append, List.length_cons, List.length_nil]
        omega
    | true =>
      simp only [assocSynStep, hfg]
      simp only [Bool.not_true, Bool.false_eq_true, if_false]
      refine ⟨_, rfl, ?_, ?_, rfl⟩
      · refine ⟨?_, ?_, ?_, ?_, ?_, ?_, ?_, ?_, ?_, ?_⟩
        · simp only [Store.write_read]; norm_num; exact hinv.h0
        · simp only [Store.write_read]; norm_num; exact hinv.h1
        · simp only [Store.write_read]; norm_num
          rw [hinv.h2, erase_sdiff_ghost]
          simp
        · simp only [Store.write_read]; norm_num
          exact (Finset.erase_subset ..).trans hinv.h23
        · simp only [Store.write_read]; norm_num; exact hinv.h3
        · exact ghost_append_nodup hx hinv.gnd
        · exact ghost_append_subset hx hinv.gsub
        · simp only [Store.write_read]; norm_num; exact hinv.h4
        · exact hinv.snd
        · exact hinv.ssub
      · simp only [List.length_append, List.length_cons, List.length_nil]
        omega

theorem assocSynPass_spec (g s : Finset (Finset String)) (sm : List (String × String))
    (st : AState) (l : List (APair × Bool)) (hinv : AInv g s st) :
    ∃ st2, assocSynPass sm st l = .ok st2 ∧ AInv g s st2 ∧
      st2.mand_matched.length + st2.opt_matched.length + st2.mand_un.length
          + st2.opt_un.length
        = st.mand_matched.length + st.opt_matched.length + st.mand_un.length
            + st.opt_un.length + l.length := by
  induction l generalizing st with
  | nil => exact ⟨st, rfl, hinv, by simp⟩
  | cons p rest ih =>
    obtain ⟨st1, heq1, hinv1, hc1, _⟩ := assocSynStep_spec g s sm st p.1 p.2 hinv
    obtain ⟨st2, heq2, hinv2, hc2⟩ := ih st1 hinv1
    refine ⟨st2, ?_, hinv2, by simp only [List.length_cons]; omega⟩
    simp only [assocSynPass, heq1, heq2]

theorem initialAState_inv (σ : Store (Finset String)) :
    AInv (σ 0) (σ 1) (initialAState σ) := by
  refine ⟨?_, ?_, ?_, ?_, ?_, ?_, ?_, ?_, ?_, ?_⟩ <;>
    simp [initialAState, Store.write_read, Finset.Subset.refl]

/-- Master specification of the association matcher, mirroring
`perform_matching_spec`. -/
theorem perform_matching_associations_spec (assoc_lines : List APair)
    (is_opt : List Bool) (σ : Store (Finset String)) (sm : List (String × String)) :
    ∃ st, perform_matching_associations assoc_lines is_opt σ sm = .ok st ∧
      AInv (σ 0) (σ 1) st ∧
      st.mand_matched.length + st.opt_matched.length + st.mand_un.length
          + st.opt_un.length = (assoc_lines.zip is_opt).length := by
  obtain ⟨st1, heq1, hinv1, hc1, hmu1, hou1⟩ :=
    assocExactPass_spec (σ 0) (σ 1) (initialAState σ) (assoc_lines.zip is_opt)
      (initialAState_inv σ)
  obtain ⟨st2, heq2, hinv2, hc2⟩ :=
    assocSynPass_spec (σ 0) (σ 1) sm st1 st1.unmatched_pairs hinv1
  refine ⟨assocFinalLog st2, ?_, ?_, ?_⟩
  · simp only [perform_matching_associations, heq1, heq2]
  · exact ⟨hinv2.h0, hinv2.h1, hinv2.h2, hinv2.h23, hinv2.h3, hinv2.gnd, hinv2.gsub,
      hinv2.h4, hinv2.snd, hinv2.ssub⟩
  · have hmu0 : st1.mand_un = [] := by rw [hmu1]; rfl
    have hou0 : st1.opt_un = [] := by rw [hou1]; rfl
    have h0 : st1.mand_matched.length + st1.opt_matched.length + st1.unmatched_pairs.length
        = (assoc_lines.zip is_opt).length := by
      simpa [initialAState] using hc1
    show st2.mand_matched.length + st2.opt_matched.length + st2.mand_un.length
        + st2.opt_un.length = _
    rw [hc2, hmu0, hou0]
    simpa using h0

/-- C7: in the association synonym pass, a deferred pair `(X, Y)` is
matched (one entry is added to a matched list) if and only if some
candidate `cx` for `X` and some candidate `cy` for `Y` form a frozenset
present in the current remaining gold set or, failing gold, the remaining
silver set; the reference item consumed is the first candidate pair found
in iteration order (`findPair`), gold searched before silver, with no
search for a better match. -/
theorem C7_assoc_synonym_pass (sm : List (String × String)) (st : AState)
    (X Y : String) (opt : Bool) (h23 : st.store 2 ⊆ st.store 3) :
    ∃ st2, assocSynStep sm st (X, Y) opt = .ok st2 ∧
      ((st2.mand_matched.length + st2.opt_matched.length
          = st.mand_matched.length + st.opt_matched.length + 1)
        ↔ (∃ cx ∈ generate_candidates X sm, ∃ cy ∈ generate_candidates Y sm,
             pairFS (cx, cy) ∈ st.store 2 ∨ pairFS (cx, cy) ∈ st.store 4)) ∧
      (∀ p, findPair (st.store 2) (generate_candidates X sm)
              (generate_candidates Y sm) = some p →
         st2.store 2 = (st.store 2).erase p ∧ p ∈ st.store 2) ∧
      (findPair (st.store 2) (generate_candidates X sm)
          (generate_candidates Y sm) = none →
       ∀ p, findPair (st.store 4) (generate_candidates X sm)
              (generate_candidates Y sm) = some p →
         st2.store 4 = (st.store 4).erase p ∧ p ∈ st.store 4) := by
  rcases hfg : findPair (st.store 2) (generate_candidates X sm)
      (generate_candidates Y sm) with _ | p
  · rcases hfs : findPair (st.store 4) (generate_candidates X sm)
        (generate_candidates Y sm) with _ | p
    · simp only [assocSynStep, hfg, hfs]
      refine ⟨_, rfl, ?_, ?_, ?_⟩
      · constructor
        · intro h
          cases opt <;> simp at h
        · rintro ⟨cx, hcx, cy, hcy, hp | hp⟩
          · have : (findPair (st.store 2) (generate_candidates X sm)
                (generate_candidates Y sm)).isSome = true :=
              (findPair_isSome_iff ..).mpr ⟨cx, hcx, cy, hcy, hp⟩
            rw [hfg] at this
            exact absurd this (by simp)
          · have : (findPair (st.store 4) (generate_candidates X sm)
                (generate_candidates Y sm)).isSome = true :=
              (findPair_isSome_iff ..).mpr ⟨cx, hcx, cy, hcy, hp⟩
            rw [hfs] at this
            exact absurd this (by simp)
      · intro q hq
        exact absurd hq (by simp)
      · intro _ q hq
        exact absurd hq (by simp)
    · have hp : p ∈ st.store 4 := findPair_mem hfs
      simp only [assocSynStep, hfg, hfs]
      refine ⟨_, rfl, ?_, ?_, ?_⟩
      · have hiff : ∃ cx ∈ generate_candidates X sm, ∃ cy ∈ generate_candidates Y sm,
            pairFS (cx, cy) ∈ st.store 2 ∨ pairFS (cx, cy) ∈ st.store 4 := by
          have : (findPair (st.store 4) (generate_candidates X sm)
              (generate_candidates Y sm)).isSome = true := by rw [hfs]; rfl
          obtain ⟨cx, hcx, cy, hcy, hm⟩ := (findPair_isSome_iff ..).mp this
          exact ⟨cx, hcx, cy, hcy, Or.inr hm⟩
        refine iff_of_true ?_ hiff
        cases opt <;> simp <;> omega
      · intro q hq
        exact absurd hq (by simp)
      · intro _ q hq
        cases hq
        refine ⟨?_, hp⟩
        simp [Store.write_read]
  · have hp : p ∈ st.store 2 := findPair_mem hfg
    have hiff : ∃ cx ∈ generate_candidates X sm, ∃ cy ∈ generate_candidates Y sm,
        pairFS (cx, cy) ∈ st.store 2 ∨ pairFS (cx, cy) ∈ st.store 4 := by
      have : (findPair (st.store 2) (generate_candidates X sm)
          (generate_candidates Y sm)).isSome = true := by rw [hfg]; rfl
      obtain ⟨cx, hcx, cy, hcy, hm⟩ := (findPair_isSome_iff ..).mp this
      exact ⟨cx, hcx, cy, hcy, Or.inl hm⟩
    cases opt with
    | false =>
      have hm : p ∈ (st.store.write 2 ((st.store 2).erase p)) 3 :=
        by rw [Store.write_read]; exact h23 hp
      have hrem : (st.store.write 2 ((st.store 2).erase p)).removeE 3 p
          = .ok ((st.store.write 2 ((st.store 2).erase p)).write 3
              (((st.store.write 2 ((st.store 2).erase p)) 3).erase p)) := by
        unfold Store.removeE
        rw [if_pos hm]
      simp only [assocSynStep, hfg]
      simp only [Bool.not_false, if_true, hrem]
      refine ⟨_, rfl, ?_, ?_, ?_⟩
      · refine iff_of_true ?_ hiff
        simp only [List.length_append, List.length_cons, List.length_nil]
        omega
      · intro q hq
        cases hq
        refine ⟨?_, hp⟩
        simp [Store.write_read]
      · intro h
        exact absurd h (by simp)
    | true =>
      simp only [assocSynStep, hfg]
      simp only [Bool.not_true, Bool.false_eq_true, if_false]
      refine ⟨_, rfl, ?_, ?_, ?_⟩
      · refine iff_of_true ?_ hiff
        simp only [List.length_append, List.length_cons, List.length_nil]
        omega
      · intro q hq
        cases hq
        refine ⟨?_, hp⟩
        simp [Store.write_read]
      · intro h
        exact absurd h (by simp)

/-! ### Claim theorems over both matchers -/

/-- C1: whenever `len(words) = len(is_optional)`, every input term of
`perform_matching` lands in exactly one of the four returned lists, so the
four lengths sum to `len(words)`; the same holds for
`perform_matching_associations` over its list of pairs. -/
theorem C1_partition_completeness :
    (∀ (words : List String) (is_optional : List Bool) (σ : Store String)
       (sm : List (String × String)),
       words.length = is_optional.length →
       ∃ st, perform_matching words is_optional σ sm = .ok st ∧
         st.mand_matched.length + st.opt_matched.length + st.mand_un.length
             + st.opt_un.length = words.length) ∧
    (∀ (assoc_lines : List APair) (is_opt : List Bool) (σ : Store (Finset String))
       (sm : List (String × String)),
       assoc_lines.length = is_opt.length →
       ∃ st, perform_matching_associations assoc_lines is_opt σ sm = .ok st ∧
         st.mand_matched.length + st.opt_matched.length + st.mand_un.length
             + st.opt_un.length = assoc_lines.length) := by
  constructor
  · intro words is_optional σ sm hlen
    obtain ⟨st, heq, _, hc⟩ := perform_matching_spec words is_optional σ sm
    refine ⟨st, heq, ?_⟩
    have hz : (words.zip is_optional).length = min words.length is_optional.length :=
      List.length_zip ..
    omega
  · intro assoc_lines is_opt σ sm hlen
    obtain ⟨st, heq, _, hc⟩ := perform_matching_associations_spec assoc_lines is_opt σ sm
    refine ⟨st, heq, ?_⟩
    have hz : (assoc_lines.zip is_opt).length = min assoc_lines.length is_opt.length :=
      List.length_zip ..
    omega

/-- C1 witness: concrete one-word and one-pair runs. -/
theorem C1_witness :
    (∃ st, perform_matching ["a"] [false]
        (fun n => if n = 0 then {"a"} else ∅) [] = .ok st ∧
       st.mand_matched.length + st.opt_matched.length + st.mand_un.length
           + st.opt_un.length = 1) ∧
    (∃ st, perform_matching_associations [("a", "b")] [false]
        (fun n => if n = 0 then {pairFS ("a", "b")} else ∅) [] = .ok st ∧
       st.mand_matched.length + st.opt_matched.length + st.mand_un.length
           + st.opt_un.length = 1) :=
  ⟨C1_partition_completeness.1 ["a"] [false] _ [] rfl,
   C1_partition_completeness.2 [("a", "b")] [false] _ [] rfl⟩

/-- C2: per run, the items consumed from the gold set (`ghostGold`) are
pairwise distinct, disjoint from the returned `remaining_gold_all`
(address 2), and together with it give back exactly the input gold
standard; likewise for silver; so no reference item is claimed twice nor
both consumed and remaining.  The same holds for the association
matcher. -/
theorem C2_no_double_consumption :
    (∀ (words : List String) (is_optional : List Bool) (σ : Store String)
       (sm : List (String × String)),
       ∃ st, perform_matching words is_optional σ sm = .ok st ∧
         st.ghostGold.Nodup ∧
         Disjoint st.ghostGold.toFinset (st.store 2) ∧
         st.ghostGold.toFinset ∪ st.store 2 = σ 0 ∧
         st.ghostSilv.Nodup ∧
         Disjoint st.ghostSilv.toFinset (st.store 4) ∧
         st.ghostSilv.toFinset ∪ st.store 4 = σ 1) ∧
    (∀ (assoc_lines : List APair) (is_opt : List Bool) (σ : Store (Finset String))
       (sm : List (String × String)),
       ∃ st, perform_matching_associations assoc_lines is_opt σ sm = .ok st ∧
         st.ghostGold.Nodup ∧
         Disjoint st.ghostGold.toFinset (st.store 2) ∧
         st.ghostGold.toFinset ∪ st.store 2 = σ 0 ∧
         st.ghostSilv.Nodup ∧
         Disjoint st.ghostSilv.toFinset (st.store 4) ∧
         st.ghostSilv.toFinset ∪ st.store 4 = σ 1) := by
  constructor
  · intro words is_optional σ sm
    obtain ⟨st, heq, hinv, _⟩ := perform_matching_spec words is_optional σ sm
    refine ⟨st, heq, hinv.gnd, ?_, ?_, hinv.snd, ?_, ?_⟩
    · rw [hinv.h2]; exact Finset.disjoint_sdiff
    · rw [hinv.h2]; exact Finset.union_sdiff_of_subset hinv.gsub
    · rw [hinv.h4]; exact Finset.disjoint_sdiff
    · rw [hinv.h4]; exact Finset.union_sdiff_of_subset hinv.ssub
  · intro assoc_lines is_opt σ sm
    obtain ⟨st, heq, hinv, _⟩ := perform_matching_associations_spec assoc_lines is_opt σ sm
    refine ⟨st, heq, hinv.gnd, ?_, ?_, hinv.snd, ?_, ?_⟩
    · rw [hinv.h2]; exact Finset.disjoint_sdiff
    · rw [hinv.h2]; exact Finset.union_sdiff_of_subset hinv.gsub
    · rw [hinv.h4]; exact Finset.disjoint_sdiff
    · rw [hinv.h4]; exact Finset.union_sdiff_of_subset hinv.ssub

/-- C5: neither matcher ever mutates the caller's `gold_standard`
(address 0) or `silver_standard` (address 1) objects — all shrinking
happens on the private copies at addresses 2, 3, 4 — so after any call the
caller's sets are exactly their values before it. -/
theorem C5_frame_property :
    (∀ (words : List String) (is_optional : List Bool) (σ : Store String)
       (sm : List (String × String)),
       ∃ st, perform_matching words is_optional σ sm = .ok st ∧
         st.store 0 = σ 0 ∧ st.store 1 = σ 1) ∧
    (∀ (assoc_lines : List APair) (is_opt : List Bool) (σ : Store (Finset String))
       (sm : List (String × String)),
       ∃ st, perform_matching_associations assoc_lines is_opt σ sm = .ok st ∧
         st.store 0 = σ 0 ∧ st.store 1 = σ 1) := by
  constructor
  · intro words is_optional σ sm
    obtain ⟨st, heq, hinv, _⟩ := perform_matching_spec words is_optional σ sm
    exact ⟨st, heq, hinv.h0, hinv.h1⟩
  · intro assoc_lines is_opt σ sm
    obtain ⟨st, heq, hinv, _⟩ := perform_matching_associations_spec assoc_lines is_opt σ sm
    exact ⟨st, heq, hinv.h0, hinv.h1⟩

/-- C10: both matchers always return `.ok` — in particular, every
`remaining_gold_man.remove` in a mandatory-match branch (the only
unguarded, fallible removals, modelled by `Store.removeE`) finds its
element present and never raises `KeyError` — and the returned
`remaining_gold_all` (address 2) is a subset of the returned
`remaining_gold_man` (address 3), i.e. the mandatory view is a superset
of the full view. -/
theorem C10_gold_views_ordered :
    (∀ (words : List String) (is_optional : List Bool) (σ : Store String)
       (sm : List (String × String)),
       ∃ st, perform_matching words is_optional σ sm = .ok st ∧
         st.store 2 ⊆ st.store 3) ∧
    (∀ (assoc_lines : List APair) (is_opt : List Bool) (σ : Store (Finset String))
       (sm : List (String × String)),
       ∃ st, perform_matching_associations assoc_lines is_opt σ sm = .ok st ∧
         st.store 2 ⊆ st.store 3) := by
  constructor
  · intro words is_optional σ sm
    obtain ⟨st, heq, hinv, _⟩ := perform_matching_spec words is_optional σ sm
    exact ⟨st, heq, hinv.h23⟩
  · intro assoc_lines is_opt σ sm
    obtain ⟨st, heq, hinv, _⟩ := perform_matching_associations_spec assoc_lines is_opt σ sm
    exact ⟨st, heq, hinv.h23⟩

/-- C7 witness: a concrete synonym-pass step with an empty synonym map and
the pair present in the remaining gold set. -/
theorem C7_witness :
    ∃ st2, assocSynStep []
        (initialAState (fun n => if n = 0 then {pairFS ("a", "b")} else ∅))
        ("a", "b") false = .ok st2 ∧
      st2.mand_matched.length + st2.opt_matched.length = 1 := by
  obtain ⟨st2, heq, hiff, _, _⟩ :=
    C7_assoc_synonym_pass []
      (initialAState (fun n => if n = 0 then {pairFS ("a", "b")} else ∅))
      "a" "b" false (by decide)
  refine ⟨st2, heq, ?_⟩
  have h := hiff.mpr ⟨"a", by decide, "b", by decide, Or.inl (by decide)⟩
  simpa using h

/-- C6 witness: no-op on a dataset absent from the non-punishment map. -/
theorem C6_witness :
    remove_non_punished_from_unmatched (fun _ => none) ["x"] [] [] "d" ""
      = (["x"], "") :=
  C6_non_punishment_filter.1 (fun _ => none) ["x"] [] [] "d" "" rfl

/-- C4 witness: concrete instantiation with gold and synonym entries
present and the silver / non-punishment tiers absent. -/
theorem C4_witness :
    run_experiment_prepare (fun _ => none) "d" [("d", ["x"])] [] [("d", [])]
      = .ok (((["x"].map (normalize_word (fun _ => none))).toFinset : Finset String), ∅,
             expand_synonym_mapping (fun _ => none) []) ∧
    evaluation_experiment_prepare (fun _ => none) "d" [("d", [("a", "b")])] [] [("d", [])]
      = .ok ((([("a", "b")].map
                 (fun pair => pairFS (normalize_word (fun _ => none) pair.1,
                                      normalize_word (fun _ => none) pair.2))).toFinset :
                Finset (Finset String)), ∅,
             expand_synonym_mapping (fun _ => none) []) ∧
    remove_non_punished_from_unmatched (fun _ => none) ["x"] [] [] "d" ""
      = (["x"], "") :=
  ⟨C4_missing_tiers_tolerated.1 (fun _ => none) "d" [("d", ["x"])] [] [("d", [])]
      ["x"] [] (by decide) (by decide) rfl,
   C4_missing_tiers_tolerated.2.1 (fun _ => none) "d" [("d", [("a", "b")])] [] [("d", [])]
      [("a", "b")] [] (by decide) (by decide) rfl,
   C4_missing_tiers_tolerated.2.2 (fun _ => none) ["x"] [] [] "d" "" rfl⟩

end VN
